import Mathlib

/-!
# FleetLock client (`pkg/client/client.go`)

A shallow embedding of the FleetLock protocol client and the properties of its
request construction and response classification.

Go strings are byte sequences, so they are lists of bytes here.  The calls the
client makes to the outside (the transport, the response body, the JSON decoder
of the error body) are recorded in a trace next to the value they return.

The standard-library functions the client calls (`url.ParseRequestURI`,
`http.NewRequest`, `json.Marshal`, `Header.Add`, `fmt.Errorf`) are embedded from
the Go 1.17 standard library, the release line the package was written against.
-/

namespace Fleetlock

/-! ## Strings and errors -/

/-- A byte. -/
abbrev Byte := Fin 256

/-- A Go `string`: an immutable sequence of bytes, not necessarily valid UTF-8. -/
abbrev GoString := List Byte

/-- The bytes of a string literal of the source (Go source text is UTF-8). -/
def str (s : String) : GoString := s.toUTF8.data.toList.map (fun u => u.val)

/-- Go `error` values, by the way they are built.  `wrapError pre err` is
`fmt.Errorf(pre + "%w", err)`: its text is `pre` followed by the text of `err`, and
`errors.Unwrap` gives `err` back. -/
inductive GoError where
  /-- An error with a fixed text: `errors.New(s)`, or `fmt.Errorf` without `%w`. -/
  | errorString (s : GoString)
  /-- The value of `fmt.Errorf(pre + "%w", err)`. -/
  | wrapError (pre : GoString) (err : GoError)
  /-- The `*url.Error{Op, URL, Err}` of `net/url`. -/
  | urlError (op url : GoString) (err : GoError)
  /-- The `url.EscapeError(s)` of `net/url`. -/
  | escapeError (s : GoString)
  /-- The `url.InvalidHostError(s)` of `net/url`. -/
  | invalidHostError (s : GoString)
  /-- The value of `fmt.Errorf("invalid port %q after host", colonPort)` in `net/url`. -/
  | invalidPort (colonPort : GoString)
  /-- The value of `fmt.Errorf("net/http: invalid method %q", method)` in `net/http`. -/
  | invalidMethod (method : GoString)
deriving DecidableEq, Repr

/-- The text `err.Error()`.  `quote` is `strconv.Quote` (the `%q` verb), which only
the errors of `net/url` use. -/
def GoError.Error (quote : GoString → GoString) : GoError → GoString
  | .errorString s => s
  | .wrapError pre err => pre ++ err.Error quote
  | .urlError op url err => op ++ str " " ++ quote url ++ str ": " ++ err.Error quote
  | .escapeError s => str "invalid URL escape " ++ quote s
  | .invalidHostError s => str "invalid character " ++ quote s ++ str " in host name"
  | .invalidPort p => str "invalid port " ++ quote p ++ str " after host"
  | .invalidMethod m => str "net/http: invalid method " ++ quote m

/-- The value of `errors.Unwrap(err)`. -/
def GoError.Unwrap : GoError → Option GoError
  | .wrapError _ err => some err
  | .urlError _ _ err => some err
  | _ => none

/-! ## Decimal formatting (`%d`) -/

/-- The ASCII digit of `d < 10`. -/
def digitByte (d : Nat) : Byte := Fin.ofNat (0x30 + d % 10)

/-- The digit loop of `fmt`'s `fmtInteger` in base 10: while `u >= 10` the last digit
is written in front of `acc`; the leading digit is written last.  The first argument
bounds the number of iterations. -/
def fmtDigits : Nat → Nat → GoString → GoString
  | 0, u, acc => digitByte u :: acc
  | fuel + 1, u, acc =>
    if 10 ≤ u then fmtDigits fuel (u / 10) (digitByte (u % 10) :: acc)
    else digitByte u :: acc

/-- The text of `fmt.Sprintf("%d", n)` for a Go `int`: the decimal digits of the
magnitude, after a minus sign when `n` is negative. -/
def fmtInteger (n : Int) : GoString :=
  if n < 0 then (0x2d : Byte) :: fmtDigits n.natAbs n.natAbs []
  else fmtDigits n.natAbs n.natAbs []

/-- Reads a run of ASCII digits as a number, most significant digit first. -/
def readDigits : GoString → Nat → Option Nat
  | [], acc => some acc
  | b :: bs, acc =>
    if 0x30 ≤ b.val ∧ b.val ≤ 0x39 then readDigits bs (acc * 10 + (b.val - 0x30))
    else none

/-- Reads a decimal integer with an optional leading minus sign (the inverse of
`fmtInteger`). -/
def readInteger : GoString → Option Int
  | [] => none
  | b :: bs =>
    if b.val = 0x2d then
      match bs with
      | [] => none
      | _ => (readDigits bs 0).map (fun (n : Nat) => -(n : Int))
    else (readDigits (b :: bs) 0).map (fun (n : Nat) => (n : Int))

/-! ## Requests, responses and the transport -/

/-- An `http.Header`: canonical key and the values added under it, in insertion
order. -/
abbrev Header := List (GoString × List GoString)

/-- The type `url.Userinfo`. -/
structure Userinfo where
  username : GoString
  password : GoString := []
  passwordSet : Bool := false
deriving DecidableEq, Repr

/-- The type `url.URL`; a nil `User` is `none`. -/
structure URL where
  Scheme : GoString := []
  Opaque : GoString := []
  User : Option Userinfo := none
  Host : GoString := []
  Path : GoString := []
  RawPath : GoString := []
  ForceQuery : Bool := false
  RawQuery : GoString := []
  Fragment : GoString := []
  RawFragment : GoString := []
deriving DecidableEq, Repr

/-- The fields of `*http.Request` that `http.NewRequest` fills from its arguments: the
method, the parsed URL, the host of that URL, the header, and the bytes of the
body. -/
structure Request where
  Method : GoString
  URL : URL
  Host : GoString
  Header : Header
  Body : GoString
deriving DecidableEq, Repr

/-- The `io.ReadCloser` of a response, as a finite stream: the bytes not yet read,
the error the stream ends with (`none` is `io.EOF`), and whether `Close` was
called. -/
structure Body where
  pending : GoString
  readErr : Option GoError
  closed : Bool
deriving DecidableEq, Repr

/-- What `ioutil.ReadAll(bufio.NewReader(body))` does: every pending byte is consumed;
the result is the bytes read and the error that ended the stream (`none` when it
ended with `io.EOF`, which `ReadAll` reports as success). -/
def Body.ReadAll (b : Body) : (GoString × Option GoError) × Body :=
  ((b.pending, b.readErr), { b with pending := [] })

/-- What `body.Close()` does. -/
def Body.Close (b : Body) : Body := { b with closed := true }

/-- The fields of `*http.Response` the client looks at.  `StatusCode` is a Go `int`;
nothing below depends on its range. -/
structure Response where
  StatusCode : Int
  Body : Body
deriving DecidableEq, Repr

/-- The calls a client operation makes to the outside. -/
inductive Effect where
  /-- The call `c.http.Do(req)`. -/
  | Do (req : Request)
  /-- The call `ioutil.ReadAll(r)` on the response body. -/
  | ReadAll
  /-- The call `resp.Body.Close()`. -/
  | Close
  /-- The call `json.Unmarshal(body, &e)`. -/
  | Unmarshal (body : GoString)
deriving DecidableEq, Repr

/-- The type `Error` of the package and its method `String` are declared in a file
that is not part of the sources at hand, so they are parameters: `E` is the value
`e` holds after decoding, `Unmarshal` is `json.Unmarshal(body, &e)` and `String` is
`e.String()`, taken to return for every value `Unmarshal` can leave in `e`. -/
structure ErrorType (E : Type) where
  Unmarshal : GoString → Except GoError E
  String : E → GoString

/-- What a call of `handleResponse` leaves behind: the error it returns (`none` is
`nil`), the state of the response body, and the calls it made. -/
structure Handled where
  err : Option GoError
  body : Body
  trace : List Effect
deriving DecidableEq, Repr

/-- The function `handleResponse`.  `Int.tdiv` is Go's integer division, which
truncates toward zero. -/
def handleResponse {E : Type} (api : ErrorType E) (resp : Response) : Handled :=
  let statusType := resp.StatusCode.tdiv 100
  if statusType = 2 then
    ⟨none, resp.Body, []⟩
  else if statusType = 3 ∨ statusType = 4 ∨ statusType = 5 then
    match resp.Body.ReadAll with
    | ((_, some err), b) =>
      ⟨some (.wrapError (str "reading body: ") err), b, [.ReadAll]⟩
    | ((body, none), b) =>
      match api.Unmarshal body with
      | .error err =>
        ⟨some (.wrapError (str "unmarshalling error: ") err), b.Close,
          [.ReadAll, .Close, .Unmarshal body]⟩
      | .ok e =>
        ⟨some (.errorString (str "fleetlock error: " ++ api.String e)), b.Close,
          [.ReadAll, .Close, .Unmarshal body]⟩
  else
    ⟨some (.errorString (str "unexpected status code: " ++ fmtInteger resp.StatusCode)),
      resp.Body, []⟩

/-! ## `net/url`: parsing -/

/-- The `encoding` modes of `net/url`. -/
inductive Encoding where
  | encodePath
  | encodePathSegment
  | encodeHost
  | encodeZone
  | encodeUserPassword
  | encodeQueryComponent
  | encodeFragment
deriving DecidableEq, Repr

/-- ASCII letter. -/
def isAlpha (c : Byte) : Bool :=
  (0x61 ≤ c.val && c.val ≤ 0x7a) || (0x41 ≤ c.val && c.val ≤ 0x5a)

/-- ASCII digit. -/
def isDigit (c : Byte) : Bool := 0x30 ≤ c.val && c.val ≤ 0x39

/-- The function `ishex` of `net/url`. -/
def ishex (c : Byte) : Bool :=
  (0x30 ≤ c.val && c.val ≤ 0x39) || (0x61 ≤ c.val && c.val ≤ 0x66) ||
    (0x41 ≤ c.val && c.val ≤ 0x46)

/-- The function `unhex` of `net/url`. -/
def unhex (c : Byte) : Nat :=
  if 0x30 ≤ c.val ∧ c.val ≤ 0x39 then c.val - 0x30
  else if 0x61 ≤ c.val ∧ c.val ≤ 0x66 then c.val - 0x61 + 10
  else if 0x41 ≤ c.val ∧ c.val ≤ 0x46 then c.val - 0x41 + 10
  else 0

/-- The function `stringContainsCTLByte`: a byte below space, or DEL. -/
def stringContainsCTLByte (s : GoString) : Bool :=
  s.any (fun b => b.val < 0x20 || b.val = 0x7f)

/-- The value of `strings.HasPrefix(s, p)`. -/
def hasPrefix (s p : GoString) : Bool := p.isPrefixOf s

/-- The value of `strings.HasSuffix(s, p)`. -/
def hasSuffix (s p : GoString) : Bool := p.isSuffixOf s

/-- The value of `strings.ToLower(s)` on an ASCII string. -/
def toLower (s : GoString) : GoString :=
  s.map (fun c => if 0x41 ≤ c.val ∧ c.val ≤ 0x5a then Fin.ofNat (c.val + 0x20) else c)

/-- The loop of `getScheme`: `i` is the index of the first byte of `rest` in
`rawURL`. -/
def getSchemeLoop (rawURL : GoString) : Nat → GoString → Except GoError (GoString × GoString)
  | _, [] => .ok ([], rawURL)
  | i, c :: rest =>
    if isAlpha c then getSchemeLoop rawURL (i + 1) rest
    else if isDigit c || c.val = 0x2b || c.val = 0x2d || c.val = 0x2e then
      if i = 0 then .ok ([], rawURL) else getSchemeLoop rawURL (i + 1) rest
    else if c.val = 0x3a then
      if i = 0 then .error (.errorString (str "missing protocol scheme"))
      else .ok (rawURL.take i, rest)
    else .ok ([], rawURL)

/-- The function `getScheme`: splits a leading `scheme:` off, when there is one. -/
def getScheme (rawURL : GoString) : Except GoError (GoString × GoString) :=
  getSchemeLoop rawURL 0 rawURL

/-- The function `split`: cuts `s` at the first `sep`; with `cutc` the separator is
dropped, otherwise it starts the second part. -/
def split (s : GoString) (sep : Byte) (cutc : Bool) : GoString × GoString :=
  match s.span (fun b => b != sep) with
  | (_, []) => (s, [])
  | (a, c :: t) => if cutc then (a, t) else (a, c :: t)

/-- The function `shouldEscape`. -/
def shouldEscape (c : Byte) (mode : Encoding) : Bool :=
  if isAlpha c || isDigit c then false
  else if (mode = .encodeHost || mode = .encodeZone) &&
      -- ! $ & ' ( ) * + , ; = : [ ] < > "
      [0x21, 0x24, 0x26, 0x27, 0x28, 0x29, 0x2a, 0x2b, 0x2c, 0x3b, 0x3d, 0x3a, 0x5b, 0x5d,
        0x3c, 0x3e, 0x22].contains c.val then false
  else if [0x2d, 0x5f, 0x2e, 0x7e].contains c.val then false -- - _ . ~
  else if [0x24, 0x26, 0x2b, 0x2c, 0x2f, 0x3a, 0x3b, 0x3d, 0x3f, 0x40].contains c.val &&
      mode ≠ .encodeHost && mode ≠ .encodeZone then
    -- $ & + , / : ; = ? @
    match mode with
    | .encodePath => c.val = 0x3f
    | .encodePathSegment => c.val = 0x2f || c.val = 0x3b || c.val = 0x2c || c.val = 0x3f
    | .encodeUserPassword => c.val = 0x40 || c.val = 0x2f || c.val = 0x3f || c.val = 0x3a
    | .encodeQueryComponent => true
    | _ => false
  else if mode = .encodeFragment && [0x21, 0x28, 0x29, 0x2a].contains c.val then false
  else true

/-- The first loop of `unescape`: the error it stops with, if any. -/
def unescapeScan (mode : Encoding) : GoString → Option GoError
  | [] => none
  | c :: cs =>
    if c.val = 0x25 then
      match cs with
      | h1 :: h2 :: rest =>
        if !ishex h1 || !ishex h2 then some (.escapeError [c, h1, h2])
        else if mode = .encodeHost && unhex h1 < 8 && !(h1.val = 0x32 && h2.val = 0x35) then
          some (.escapeError [c, h1, h2])
        else if mode = .encodeZone && !(h1.val = 0x32 && h2.val = 0x35) &&
            unhex h1 * 16 + unhex h2 ≠ 0x20 &&
            shouldEscape (Fin.ofNat (unhex h1 * 16 + unhex h2)) .encodeHost then
          some (.escapeError [c, h1, h2])
        else unescapeScan mode rest
      | _ => some (.escapeError (c :: cs))
    else if c.val = 0x2b then unescapeScan mode cs
    else if (mode = .encodeHost || mode = .encodeZone) && c.val < 0x80 &&
        shouldEscape c .encodeHost then
      some (.invalidHostError [c])
    else unescapeScan mode cs

/-- The second loop of `unescape`: the unescaped bytes of a string that passed the
first loop. -/
def unescapeBuild (mode : Encoding) : GoString → GoString
  | [] => []
  | c :: cs =>
    if c.val = 0x25 then
      match cs with
      | h1 :: h2 :: rest => Fin.ofNat (unhex h1 * 16 + unhex h2) :: unescapeBuild mode rest
      | _ => []
    else if c.val = 0x2b then
      (if mode = .encodeQueryComponent then (0x20 : Byte) else c) :: unescapeBuild mode cs
    else c :: unescapeBuild mode cs

/-- The function `unescape`. -/
def unescape (s : GoString) (mode : Encoding) : Except GoError GoString :=
  match unescapeScan mode s with
  | some err => .error err
  | none => .ok (unescapeBuild mode s)

/-- The function `validOptionalPort`: empty, or a colon and decimal digits. -/
def validOptionalPort (port : GoString) : Bool :=
  match port with
  | [] => true
  | c :: ds => c.val = 0x3a && ds.all isDigit

/-- The function `validUserinfo`. -/
def validUserinfo (s : GoString) : Bool :=
  s.all (fun r => isAlpha r || isDigit r ||
    -- - . _ : ~ ! $ & ' ( ) * + , ; = % @
    [0x2d, 0x2e, 0x5f, 0x3a, 0x7e, 0x21, 0x24, 0x26, 0x27, 0x28, 0x29, 0x2a, 0x2b, 0x2c,
      0x3b, 0x3d, 0x25, 0x40].contains r.val)

/-- The value of `strings.LastIndex(s, string(c))` for a single byte `c`. -/
def lastIndexByte (s : GoString) (c : Byte) : Option Nat :=
  match s.reverse.indexOf? c with
  | none => none
  | some k => some (s.length - 1 - k)

/-- The value of `strings.Index(s, sub)`: where `sub` first occurs in `s`, from
index `i` on. -/
def indexFrom (sub : GoString) : GoString → Nat → Option Nat
  | [], i => if sub.isEmpty then some i else none
  | c :: cs, i => if sub.isPrefixOf (c :: cs) then some i else indexFrom sub cs (i + 1)

/-- The function `parseHost`. -/
def parseHost (host : GoString) : Except GoError GoString :=
  let plain : Except GoError GoString := unescape host .encodeHost
  if hasPrefix host (str "[") then
    match lastIndexByte host 0x5d with
    | none => .error (.errorString (str "missing ']' in host"))
    | some i =>
      let colonPort := host.drop (i + 1)
      if !validOptionalPort colonPort then .error (.invalidPort colonPort)
      else
        match indexFrom (str "%25") (host.take i) 0 with
        | some zone =>
          match unescape (host.take zone) .encodeHost with
          | .error err => .error err
          | .ok host1 =>
            match unescape ((host.take i).drop zone) .encodeZone with
            | .error err => .error err
            | .ok host2 =>
              match unescape (host.drop i) .encodeHost with
              | .error err => .error err
              | .ok host3 => .ok (host1 ++ host2 ++ host3)
        | none => plain
  else
    match lastIndexByte host 0x3a with
    | some i =>
      let colonPort := host.drop i
      if !validOptionalPort colonPort then .error (.invalidPort colonPort) else plain
    | none => plain

/-- The function `parseAuthority`: the user information and the host. -/
def parseAuthority (authority : GoString) : Except GoError (Option Userinfo × GoString) :=
  match lastIndexByte authority 0x40 with
  | none =>
    match parseHost authority with
    | .error err => .error err
    | .ok host => .ok (none, host)
  | some i =>
    match parseHost (authority.drop (i + 1)) with
    | .error err => .error err
    | .ok host =>
      let userinfo := authority.take i
      if !validUserinfo userinfo then .error (.errorString (str "net/url: invalid userinfo"))
      else if !userinfo.contains 0x3a then
        match unescape userinfo .encodeUserPassword with
        | .error err => .error err
        | .ok username => .ok (some { username := username }, host)
      else
        match unescape (split userinfo 0x3a true).1 .encodeUserPassword with
        | .error err => .error err
        | .ok username =>
          match unescape (split userinfo 0x3a true).2 .encodeUserPassword with
          | .error err => .error err
          | .ok password =>
            .ok (some { username := username, password := password, passwordSet := true }, host)

/-- The digits `upperhex` of `net/url`. -/
def upperhexDigit (n : Nat) : Byte :=
  if n % 16 < 10 then Fin.ofNat (0x30 + n % 16) else Fin.ofNat (0x41 + (n % 16 - 10))

/-- The function `escape`: a space becomes a plus sign in a query component, every
other byte that `shouldEscape` names becomes a percent sign and two upper-case
hexadecimal digits. -/
def escape (s : GoString) (mode : Encoding) : GoString :=
  s.flatMap (fun c =>
    if c.val = 0x20 ∧ mode = .encodeQueryComponent then [(0x2b : Byte)]
    else if shouldEscape c mode then
      [(0x25 : Byte), upperhexDigit (c.val / 16), upperhexDigit (c.val % 16)]
    else [c])

/-- The function `validEncoded`. -/
def validEncoded (s : GoString) (mode : Encoding) : Bool :=
  s.all (fun c =>
    -- ! $ & ' ( ) * + , ; = : @ [ ] %
    [0x21, 0x24, 0x26, 0x27, 0x28, 0x29, 0x2a, 0x2b, 0x2c, 0x3b, 0x3d, 0x3a, 0x40, 0x5b, 0x5d,
      0x25].contains c.val || !shouldEscape c mode)

/-- The method `URL.setPath`: the unescaped path, and the given spelling as `RawPath`
when it is not the default escaping of the path. -/
def setPath (u : URL) (p : GoString) : Except GoError URL :=
  match unescape p .encodePath with
  | .error err => .error err
  | .ok path =>
    .ok { u with Path := path, RawPath := if p = escape path .encodePath then [] else p }

/-- The method `URL.setFragment`. -/
def setFragment (u : URL) (f : GoString) : Except GoError URL :=
  match unescape f .encodeFragment with
  | .error err => .error err
  | .ok frag =>
    .ok { u with Fragment := frag,
                 RawFragment := if f = escape frag .encodeFragment then [] else f }

/-- The method `URL.EscapedPath`. -/
def URL.EscapedPath (u : URL) : GoString :=
  if u.RawPath ≠ [] && validEncoded u.RawPath .encodePath &&
      (match unescape u.RawPath .encodePath with
        | .ok p => decide (p = u.Path)
        | .error _ => false) then u.RawPath
  else if u.Path = str "*" then str "*"
  else escape u.Path .encodePath

/-- The method `URL.EscapedFragment`. -/
def URL.EscapedFragment (u : URL) : GoString :=
  if u.RawFragment ≠ [] && validEncoded u.RawFragment .encodeFragment &&
      (match unescape u.RawFragment .encodeFragment with
        | .ok f => decide (f = u.Fragment)
        | .error _ => false) then u.RawFragment
  else escape u.Fragment .encodeFragment

/-- The method `Userinfo.String`. -/
def Userinfo.String (ui : Userinfo) : GoString :=
  escape ui.username .encodeUserPassword ++
    (if ui.passwordSet then str ":" ++ escape ui.password .encodeUserPassword else [])

/-- What `URL.String` has written when it comes to the path: the scheme, the
authority, and a slash in front of a rootless path that follows a host. -/
def URL.beforePath (u : URL) : GoString :=
  (if u.Scheme ≠ [] then u.Scheme ++ str ":" else []) ++
  (if u.Scheme ≠ [] ∨ u.Host ≠ [] ∨ u.User.isSome then
    (if u.Host ≠ [] ∨ u.Path ≠ [] ∨ u.User.isSome then str "//" else []) ++
    (match u.User with
      | some ui => ui.String ++ str "@"
      | none => []) ++
    (if u.Host ≠ [] then escape u.Host .encodeHost else [])
   else []) ++
  (if u.EscapedPath ≠ [] ∧ u.EscapedPath.head? ≠ some 0x2f ∧ u.Host ≠ [] then str "/" else [])

/-- The method `URL.String`. -/
def URL.String (u : URL) : GoString :=
  (if u.Opaque ≠ [] then
    (if u.Scheme ≠ [] then u.Scheme ++ str ":" else []) ++ u.Opaque
   else
    u.beforePath ++
    (if u.beforePath = [] &&
        (match u.EscapedPath.indexOf? 0x3a with
          | some i => !(u.EscapedPath.take i).contains 0x2f
          | none => false) then str "./"
     else []) ++
    u.EscapedPath) ++
  (if u.ForceQuery ∨ u.RawQuery ≠ [] then str "?" ++ u.RawQuery else []) ++
  (if u.Fragment ≠ [] then str "#" ++ u.EscapedFragment else [])

/-- The part of `parse` that follows the cutting of the query: `url` holds the scheme
and the query, `rest` is what is left between them. -/
def parseHierarchy (viaRequest : Bool) (url : URL) (rest : GoString) : Except GoError URL :=
  if !hasPrefix rest (str "/") && url.Scheme ≠ [] then .ok { url with Opaque := rest }
  else if !hasPrefix rest (str "/") && viaRequest then
    .error (.errorString (str "invalid URI for request"))
  else if !hasPrefix rest (str "/") &&
      (match rest.indexOf? 0x3a, rest.indexOf? 0x2f with
        | some _, none => true
        | some colon, some slash => decide (colon < slash)
        | none, _ => false) then
    .error (.errorString (str "first path segment in URL cannot contain colon"))
  else if (url.Scheme ≠ [] || (!viaRequest && !hasPrefix rest (str "///"))) &&
      hasPrefix rest (str "//") then
    match parseAuthority (split (rest.drop 2) 0x2f false).1 with
    | .error err => .error err
    | .ok (user, host) =>
      setPath { url with User := user, Host := host } (split (rest.drop 2) 0x2f false).2
  else setPath url rest

/-- The function `parse` of `net/url`. -/
def parse (rawURL : GoString) (viaRequest : Bool) : Except GoError URL :=
  if stringContainsCTLByte rawURL then
    .error (.errorString (str "net/url: invalid control character in URL"))
  else if rawURL = [] ∧ viaRequest then .error (.errorString (str "empty url"))
  else if rawURL = str "*" then .ok { Path := str "*" }
  else
    match getScheme rawURL with
    | .error err => .error err
    | .ok (scheme, rest) =>
      if hasSuffix rest (str "?") && rest.count 0x3f = 1 then
        parseHierarchy viaRequest { Scheme := toLower scheme, ForceQuery := true }
          (rest.take (rest.length - 1))
      else
        parseHierarchy viaRequest
          { Scheme := toLower scheme, RawQuery := (split rest 0x3f true).2 }
          (split rest 0x3f true).1

/-- The function `url.ParseRequestURI`. -/
def ParseRequestURI (rawURL : GoString) : Except GoError URL :=
  match parse rawURL true with
  | .error err => .error (.urlError (str "parse") rawURL err)
  | .ok url => .ok url

/-- The function `url.Parse`. -/
def Parse (rawURL : GoString) : Except GoError URL :=
  let u := (split rawURL 0x23 true).1
  let frag := (split rawURL 0x23 true).2
  match parse u false with
  | .error err => .error (.urlError (str "parse") u err)
  | .ok url =>
    if frag = [] then .ok url
    else
      match setFragment url frag with
      | .error err => .error (.urlError (str "parse") rawURL err)
      | .ok url => .ok url

/-! ## `unicode/utf8` -/

/-- The rune `utf8.RuneError`, U+FFFD. -/
def RuneError : Nat := 0xFFFD

/-- The function `utf8.DecodeRuneInString`: the first rune of `s` and its width in
bytes; `(RuneError, 1)` when `s` does not start with a valid encoding, `(RuneError, 0)`
when `s` is empty.  The tables `first` and `acceptRanges` of the source are written
out as the byte ranges they hold. -/
def DecodeRuneInString : GoString → Nat × Nat
  | [] => (RuneError, 0)
  | s0 :: rest =>
    if s0.val < 0x80 then (s0.val, 1)
    else if s0.val < 0xC2 ∨ 0xF4 < s0.val then (RuneError, 1)
    else
      let sz := if s0.val < 0xE0 then 2 else if s0.val < 0xF0 then 3 else 4
      let lo := if s0.val = 0xE0 then 0xA0 else if s0.val = 0xF0 then 0x90 else 0x80
      let hi := if s0.val = 0xED then 0x9F else if s0.val = 0xF4 then 0x8F else 0xBF
      if rest.length + 1 < sz then (RuneError, 1)
      else
        match rest with
        | [] => (RuneError, 1)
        | s1 :: r1 =>
          if s1.val < lo ∨ hi < s1.val then (RuneError, 1)
          else if sz ≤ 2 then (s0.val % 0x20 * 0x40 + s1.val % 0x40, 2)
          else
            match r1 with
            | [] => (RuneError, 1)
            | s2 :: r2 =>
              if s2.val < 0x80 ∨ 0xBF < s2.val then (RuneError, 1)
              else if sz ≤ 3 then
                (s0.val % 0x10 * 0x1000 + s1.val % 0x40 * 0x40 + s2.val % 0x40, 3)
              else
                match r2 with
                | [] => (RuneError, 1)
                | s3 :: _ =>
                  if s3.val < 0x80 ∨ 0xBF < s3.val then (RuneError, 1)
                  else
                    (s0.val % 0x08 * 0x40000 + s1.val % 0x40 * 0x1000 +
                      s2.val % 0x40 * 0x40 + s3.val % 0x40, 4)

/-- The function `utf8.EncodeRune` (as `utf8.AppendRune` to the empty slice):
surrogates and values above U+10FFFF are written as U+FFFD. -/
def EncodeRune (r : Nat) : GoString :=
  if r ≤ 0x7F then [Fin.ofNat r]
  else if r ≤ 0x7FF then [Fin.ofNat (0xC0 + r / 0x40), Fin.ofNat (0x80 + r % 0x40)]
  else if 0x10FFFF < r ∨ (0xD800 ≤ r ∧ r ≤ 0xDFFF) then [0xEF, 0xBF, 0xBD]
  else if r ≤ 0xFFFF then
    [Fin.ofNat (0xE0 + r / 0x1000), Fin.ofNat (0x80 + r / 0x40 % 0x40),
      Fin.ofNat (0x80 + r % 0x40)]
  else
    [Fin.ofNat (0xF0 + r / 0x40000), Fin.ofNat (0x80 + r / 0x1000 % 0x40),
      Fin.ofNat (0x80 + r / 0x40 % 0x40), Fin.ofNat (0x80 + r % 0x40)]

/-- Whether `r` is a Unicode scalar value: a code point that is not a surrogate. -/
def isScalar (r : Nat) : Bool := r < 0xD800 || (0xE000 ≤ r && r ≤ 0x10FFFF)

/-- The UTF-8 encoding of a sequence of code points. -/
def utf8 (rs : List Nat) : GoString := rs.flatMap EncodeRune

/-- The function `utf8.ValidString`, by way of `DecodeRuneInString`: no position at
which decoding resumes is an encoding error.  The first argument bounds the number
of runes. -/
def validLoop : Nat → GoString → Bool
  | 0, s => s.isEmpty
  | _ + 1, [] => true
  | fuel + 1, b :: rest =>
    let d := DecodeRuneInString (b :: rest)
    if d.1 = RuneError ∧ d.2 = 1 then false
    else validLoop fuel ((b :: rest).drop d.2)

/-- The function `utf8.ValidString`. -/
def ValidString (s : GoString) : Bool := validLoop s.length s

/-! ## `encoding/json`: encoding -/

/-- The digits `hex` of `encoding/json`. -/
def hexDigit (n : Nat) : Byte :=
  if n % 16 < 10 then Fin.ofNat (0x30 + n % 16) else Fin.ofNat (0x61 + (n % 16 - 10))

/-- The table `htmlSafeSet`: the ASCII bytes from space on, but for the double quote,
the backslash, and the three characters escaped for HTML. -/
def htmlSafeSet (b : Byte) : Bool :=
  0x20 ≤ b.val && b.val < 0x80 &&
    !(b.val = 0x22 || b.val = 0x5c || b.val = 0x3c || b.val = 0x3e || b.val = 0x26)

/-- What `encodeState.string` writes for an ASCII byte that is not in `htmlSafeSet`. -/
def escapeByte (b : Byte) : GoString :=
  if b.val = 0x5c ∨ b.val = 0x22 then [0x5c, b]
  else if b.val = 0x0a then str "\\n"
  else if b.val = 0x0d then str "\\r"
  else if b.val = 0x09 then str "\\t"
  else str "\\u00" ++ [hexDigit (b.val / 16), hexDigit (b.val % 16)]

/-- The loop of `encodeState.string(s, escapeHTML = true)`: what is written between
the quotes.  The first argument bounds the number of iterations. -/
def encodeStringLoop : Nat → GoString → GoString
  | 0, _ => []
  | _ + 1, [] => []
  | fuel + 1, b :: rest =>
    if b.val < 0x80 then
      if htmlSafeSet b then b :: encodeStringLoop fuel rest
      else escapeByte b ++ encodeStringLoop fuel rest
    else
      let d := DecodeRuneInString (b :: rest)
      if d.1 = RuneError ∧ d.2 = 1 then str "\\ufffd" ++ encodeStringLoop fuel rest
      else if d.1 = 0x2028 ∨ d.1 = 0x2029 then
        str "\\u202" ++ [hexDigit (d.1 % 16)] ++ encodeStringLoop fuel ((b :: rest).drop d.2)
      else (b :: rest).take d.2 ++ encodeStringLoop fuel ((b :: rest).drop d.2)

/-- The method `encodeState.string` with `escapeHTML` set: the JSON string literal
for a Go string. -/
def encodeString (s : GoString) : GoString :=
  [(0x22 : Byte)] ++ encodeStringLoop s.length s ++ [(0x22 : Byte)]

/-- The type `Params`. -/
structure Params where
  ID : GoString
  Group : GoString
deriving DecidableEq, Repr

/-- The type `Payload`; the pointer `ClientParams` may be nil. -/
structure Payload where
  ClientParams : Option Params
deriving DecidableEq, Repr

/-- The value of `json.Marshal(payload)` for a `*Payload`: the struct fields in
declaration order under their `json` tags, a nil pointer as `null`.  Encoding these
types has no failing case. -/
def Marshal (payload : Payload) : Except GoError GoString :=
  .ok (str "\x7b\"client_params\":" ++
    (match payload.ClientParams with
      | none => str "null"
      | some p =>
        str "\x7b\"id\":" ++ encodeString p.ID ++ str ",\"group\":" ++ encodeString p.Group ++
          str "\x7d") ++
    str "\x7d")

/-! ## `net/http`: headers and requests -/

/-- The function `validHeaderFieldByte`: the token characters of RFC 7230. -/
def validHeaderFieldByte (c : Byte) : Bool :=
  isAlpha c || isDigit c ||
    -- ! # $ % & ' * + - . ^ _ ` | ~
    [0x21, 0x23, 0x24, 0x25, 0x26, 0x27, 0x2a, 0x2b, 0x2d, 0x2e, 0x5e, 0x5f, 0x60, 0x7c,
      0x7e].contains c.val

/-- The second loop of `canonicalMIMEHeaderKey`: a letter is put in upper case at the
start and after a dash, in lower case elsewhere. -/
def canonicalLoop : Bool → GoString → GoString
  | _, [] => []
  | upper, c :: cs =>
    let c1 : Byte :=
      if upper ∧ 0x61 ≤ c.val ∧ c.val ≤ 0x7a then Fin.ofNat (c.val - 0x20)
      else if ¬ upper ∧ 0x41 ≤ c.val ∧ c.val ≤ 0x5a then Fin.ofNat (c.val + 0x20)
      else c
    c1 :: canonicalLoop (c1.val = 0x2d) cs

/-- The function `textproto.CanonicalMIMEHeaderKey`: a key with a byte that is not a
token character is left as it is. -/
def CanonicalMIMEHeaderKey (s : GoString) : GoString :=
  if s.all validHeaderFieldByte then canonicalLoop true s else s

/-- The method `Header.Add`: the value is appended under the canonical key. -/
def Header.Add (h : Header) (key value : GoString) : Header :=
  let k := CanonicalMIMEHeaderKey key
  if h.any (fun e => e.1 = k) then
    h.map (fun e => if e.1 = k then (e.1, e.2 ++ [value]) else e)
  else h ++ [(k, [value])]

/-- The method `Header.Values`: the values stored under the canonical form of `key`. -/
def Header.Values (h : Header) (key : GoString) : List GoString :=
  match h.find? (fun e => e.1 = CanonicalMIMEHeaderKey key) with
  | some e => e.2
  | none => []

/-- The function `validMethod` of `net/http`: a non-empty token. -/
def validMethod (method : GoString) : Bool :=
  !method.isEmpty && method.all validHeaderFieldByte

/-- The function `hasPort` of `net/http`: the last colon comes after the last closing
bracket. -/
def hasPort (s : GoString) : Bool :=
  match lastIndexByte s 0x3a, lastIndexByte s 0x5d with
  | some colon, some bracket => decide (bracket < colon)
  | some _, none => true
  | none, _ => false

/-- The function `removeEmptyPort` of `net/http`: a host that ends in a colon with no
port after it loses the colon. -/
def removeEmptyPort (host : GoString) : GoString :=
  if hasPort host && hasSuffix host (str ":") then host.take (host.length - 1) else host

/-- The function `http.NewRequest(method, url, body)` with a `*bytes.Reader` body: it
fails on an invalid method and on a URL that `url.Parse` rejects; the request holds
the parsed URL, with an empty port removed from its host, and an empty header. -/
def NewRequest (method url body : GoString) : Except GoError Request :=
  let method := if method = [] then str "GET" else method
  if !validMethod method then .error (.invalidMethod method)
  else
    match Parse url with
    | .error err => .error err
    | .ok u =>
      .ok { Method := method, URL := { u with Host := removeEmptyPort u.Host },
            Host := removeEmptyPort u.Host, Header := [], Body := body }

/-! ## The client -/

/-- The interface `HTTPClient`: `Do` takes a request and the state of the transport,
and gives a response or an error, and the next state. -/
structure HTTPClient (σ : Type) where
  Do : Request → σ → Except GoError Response × σ

/-- The type `Client`. -/
structure Client (σ : Type) where
  baseServerURL : GoString
  group : GoString
  id : GoString
  http : HTTPClient σ

/-- The method `Client.generateRequest`. -/
def generateRequest {σ : Type} (c : Client σ) (endpoint : GoString) : Except GoError Request :=
  let payload : Payload := { ClientParams := some { ID := c.id, Group := c.group } }
  match Marshal payload with
  | .error err => .error (.wrapError (str "marshalling the payload: ") err)
  | .ok body =>
    match NewRequest (str "POST") (c.baseServerURL ++ str "/" ++ endpoint) body with
    | .error err => .error (.wrapError (str "building request: ") err)
    | .ok req =>
      .ok { req with Header := Header.Add [] (str "fleet-lock-protocol") (str "true") }

/-- What a call of `RecursiveLock` or `UnlockIfHeld` leaves behind: the error it
returns (`none` is `nil`), the state of the transport, the calls it made, and the
state of the response body when a response came back. -/
structure Outcome (σ : Type) where
  err : Option GoError
  state : σ
  trace : List Effect
  body : Option Body

/-- The method `Client.RecursiveLock`. -/
def RecursiveLock {σ E : Type} (api : ErrorType E) (c : Client σ) (s : σ) : Outcome σ :=
  match generateRequest c (str "v1/pre-reboot") with
  | .error err => ⟨some (.wrapError (str "generating request: ") err), s, [], none⟩
  | .ok req =>
    match c.http.Do req s with
    | (.error err, s1) =>
      ⟨some (.wrapError (str "doing the request: ") err), s1, [.Do req], none⟩
    | (.ok resp, s1) =>
      ⟨(handleResponse api resp).err, s1, .Do req :: (handleResponse api resp).trace,
        some (handleResponse api resp).body⟩

/-- The method `Client.UnlockIfHeld`. -/
def UnlockIfHeld {σ E : Type} (api : ErrorType E) (c : Client σ) (s : σ) : Outcome σ :=
  match generateRequest c (str "v1/steady-state") with
  | .error err => ⟨some (.wrapError (str "generating request: ") err), s, [], none⟩
  | .ok req =>
    match c.http.Do req s with
    | (.error err, s1) =>
      ⟨some (.wrapError (str "doing the request: ") err), s1, [.Do req], none⟩
    | (.ok resp, s1) =>
      ⟨(handleResponse api resp).err, s1, .Do req :: (handleResponse api resp).trace,
        some (handleResponse api resp).body⟩

/-- What a call of `New` leaves behind: the client or the error, and the calls it
made. -/
structure Built (σ : Type) where
  result : Except GoError (Client σ)
  trace : List Effect

/-- The function `New`. -/
def New {σ : Type} (baseServerURL group id : GoString) (c : HTTPClient σ) : Built σ :=
  match ParseRequestURI baseServerURL with
  | .error err => ⟨.error (.wrapError (str "parsing URL: ") err), []⟩
  | .ok _ =>
    ⟨.ok { baseServerURL := baseServerURL, http := c, group := group, id := id }, []⟩

/-! ## A reference JSON decoder

The request body is read back with a decoder for the JSON grammar of RFC 8259.
String values are decoded the way Go's decoder does it: escapes are resolved, and
text outside ASCII is decoded and encoded again, so a decoded string is always valid
UTF-8. -/

/-- A JSON value; a number is kept as its text. -/
inductive JSON where
  | null
  | bool (b : Bool)
  | number (text : GoString)
  | string (s : GoString)
  | array (elems : List JSON)
  | object (members : List (GoString × JSON))
deriving Repr

/-- Drops leading JSON whitespace: space, tab, line feed, carriage return. -/
def skipWS : GoString → GoString
  | [] => []
  | c :: cs =>
    if c.val = 0x20 ∨ c.val = 0x09 ∨ c.val = 0x0a ∨ c.val = 0x0d then skipWS cs else c :: cs

/-- Reads four hexadecimal digits as a number. -/
def hex4 : GoString → Option (Nat × GoString)
  | a :: b :: c :: d :: rest =>
    if ishex a && ishex b && ishex c && ishex d then
      some (unhex a * 0x1000 + unhex b * 0x100 + unhex c * 0x10 + unhex d, rest)
    else none
  | _ => none

/-- The byte a single-character escape stands for. -/
def simpleEscape (e : Byte) : Option Byte :=
  if e.val = 0x22 ∨ e.val = 0x5c ∨ e.val = 0x2f then some e
  else if e.val = 0x62 then some 0x08
  else if e.val = 0x66 then some 0x0c
  else if e.val = 0x6e then some 0x0a
  else if e.val = 0x72 then some 0x0d
  else if e.val = 0x74 then some 0x09
  else none

/-- Puts decoded bytes in front of the rest of a decoded string. -/
def consBytes (bs : GoString) (r : Option (GoString × GoString)) : Option (GoString × GoString) :=
  r.map (fun p => (bs ++ p.1, p.2))

/-- Decodes a string literal from just after its opening quote: the decoded bytes and
the input after the closing quote.  The first argument bounds the number of steps. -/
def parseStringBody : Nat → GoString → Option (GoString × GoString)
  | 0, _ => none
  | _ + 1, [] => none
  | fuel + 1, c :: cs =>
    if c.val = 0x22 then some ([], cs)
    else if c.val = 0x5c then
      match cs with
      | [] => none
      | e :: r =>
        if e.val = 0x75 then
          match hex4 r with
          | none => none
          | some (u, r1) =>
            if 0xD800 ≤ u ∧ u ≤ 0xDBFF then
              match r1 with
              | b1 :: b2 :: r2 =>
                if b1.val = 0x5c ∧ b2.val = 0x75 then
                  match hex4 r2 with
                  | some (u2, r3) =>
                    if 0xDC00 ≤ u2 ∧ u2 ≤ 0xDFFF then
                      consBytes (EncodeRune (0x10000 + (u - 0xD800) * 0x400 + (u2 - 0xDC00)))
                        (parseStringBody fuel r3)
                    else consBytes (EncodeRune RuneError) (parseStringBody fuel r1)
                  | none => consBytes (EncodeRune RuneError) (parseStringBody fuel r1)
                else consBytes (EncodeRune RuneError) (parseStringBody fuel r1)
              | _ => consBytes (EncodeRune RuneError) (parseStringBody fuel r1)
            else consBytes (EncodeRune u) (parseStringBody fuel r1)
        else
          match simpleEscape e with
          | none => none
          | some b => consBytes [b] (parseStringBody fuel r)
    else if c.val < 0x20 then none
    else if c.val < 0x80 then consBytes [c] (parseStringBody fuel cs)
    else
      consBytes (EncodeRune (DecodeRuneInString (c :: cs)).1)
        (parseStringBody fuel ((c :: cs).drop (DecodeRuneInString (c :: cs)).2))

/-- Splits the longest run of ASCII digits off the front. -/
def spanDigits (s : GoString) : GoString × GoString := s.span isDigit

/-- Reads a JSON number: an optional minus sign, an integer part without a leading
zero, an optional fraction, an optional exponent. -/
def parseNumber (s : GoString) : Option (GoString × GoString) :=
  let sign : GoString := s.takeWhile (fun c => c.val = 0x2d) |>.take 1
  let s1 := s.drop sign.length
  let int := (spanDigits s1).1
  let s2 := (spanDigits s1).2
  if int = [] ∨ (int.length > 1 ∧ int.head? = some 0x30) then none
  else
    let fracOK : Option (GoString × GoString) :=
      match s2 with
      | c :: t =>
        if c.val = 0x2e then
          if (spanDigits t).1 = [] then none else some (c :: (spanDigits t).1, (spanDigits t).2)
        else some ([], s2)
      | [] => some ([], s2)
    match fracOK with
    | none => none
    | some (frac, s3) =>
      let expOK : Option (GoString × GoString) :=
        match s3 with
        | c :: t =>
          if c.val = 0x65 ∨ c.val = 0x45 then
            let sg : GoString := t.takeWhile (fun c => c.val = 0x2b ∨ c.val = 0x2d) |>.take 1
            let t1 := t.drop sg.length
            if (spanDigits t1).1 = [] then none
            else some (c :: sg ++ (spanDigits t1).1, (spanDigits t1).2)
          else some ([], s3)
        | [] => some ([], s3)
      match expOK with
      | none => none
      | some (exp, s4) => some (sign ++ int ++ frac ++ exp, s4)

mutual
/-- Reads one JSON value from the front of the input, which does not start with
whitespace.  The first argument bounds the nesting and the number of members. -/
def parseValue : Nat → GoString → Option (JSON × GoString)
  | 0, _ => none
  | fuel + 1, s =>
    match s with
    | [] => none
    | c :: cs =>
      if c.val = 0x7b then
        match skipWS cs with
        | [] => none
        | d :: ds =>
          if d.val = 0x7d then some (.object [], ds)
          else (parseMembers fuel (d :: ds)).map (fun r => (.object r.1, r.2))
      else if c.val = 0x5b then
        match skipWS cs with
        | [] => none
        | d :: ds =>
          if d.val = 0x5d then some (.array [], ds)
          else (parseElements fuel (d :: ds)).map (fun r => (.array r.1, r.2))
      else if c.val = 0x22 then
        (parseStringBody (cs.length + 1) cs).map (fun r => (.string r.1, r.2))
      else if (str "true").isPrefixOf s then some (.bool true, s.drop 4)
      else if (str "false").isPrefixOf s then some (.bool false, s.drop 5)
      else if (str "null").isPrefixOf s then some (.null, s.drop 4)
      else (parseNumber s).map (fun r => (.number r.1, r.2))
/-- Reads the members of an object, from the opening quote of the first key to the
closing brace. -/
def parseMembers : Nat → GoString → Option (List (GoString × JSON) × GoString)
  | 0, _ => none
  | fuel + 1, s =>
    match s with
    | [] => none
    | q :: cs =>
      if q.val ≠ 0x22 then none
      else
        match parseStringBody (cs.length + 1) cs with
        | none => none
        | some (key, r1) =>
          match skipWS r1 with
          | [] => none
          | colon :: r2 =>
            if colon.val ≠ 0x3a then none
            else
              match parseValue fuel (skipWS r2) with
              | none => none
              | some (v, r3) =>
                match skipWS r3 with
                | [] => none
                | e :: r4 =>
                  if e.val = 0x7d then some ([(key, v)], r4)
                  else if e.val = 0x2c then
                    (parseMembers fuel (skipWS r4)).map (fun r => ((key, v) :: r.1, r.2))
                  else none
/-- Reads the elements of an array, from the first element to the closing bracket. -/
def parseElements : Nat → GoString → Option (List JSON × GoString)
  | 0, _ => none
  | fuel + 1, s =>
    match parseValue fuel s with
    | none => none
    | some (v, r1) =>
      match skipWS r1 with
      | [] => none
      | e :: r2 =>
        if e.val = 0x5d then some ([v], r2)
        else if e.val = 0x2c then
          (parseElements fuel (skipWS r2)).map (fun r => (v :: r.1, r.2))
        else none
end

/-- Decodes a JSON text: one value, with whitespace allowed around it. -/
def decodeJSON (s : GoString) : Option JSON :=
  match parseValue (s.length + 1) (skipWS s) with
  | none => none
  | some (v, rest) => if skipWS rest = [] then some v else none

/-- Reads a decoded JSON value as a `Payload`: an object with the single member
`client_params`, itself an object with exactly the members `id` and `group`, both
strings. -/
def toPayload : JSON → Option Payload
  | .object [(k, .object [(k1, .string id), (k2, .string group)])] =>
    if k = str "client_params" ∧ k1 = str "id" ∧ k2 = str "group" then
      some { ClientParams := some { ID := id, Group := group } }
    else none
  | _ => none

/-- Decodes a request body as a `Payload`. -/
def decodePayload (body : GoString) : Option Payload :=
  (decodeJSON body).bind toPayload

/-! ## Sample values -/

/-- Modelled from the spec: the type `Error` of the package, which is missing from the
sources.  The spec gives its wire shape, an object with the string members `kind` and
`value`, and asks for a rendering to one descriptive string without fixing it. -/
structure Error where
  Kind : GoString
  Value : GoString
deriving DecidableEq, Repr

/-- The string member `name` of a list of object members; absent members read as the
empty string, a member of another type is a decoding error. -/
def stringMember (name : GoString) : List (GoString × JSON) → Option GoString
  | [] => some []
  | (k, .string v) :: ms => if k = name then some v else stringMember name ms
  | (k, _) :: ms => if k = name then none else stringMember name ms

/-- Modelled from the spec: decoding of the error body and its rendering, for the
missing type `Error`: the body must be a JSON object, `kind` and `value` are its
string members, and the rendering joins them with a colon and a space. -/
def specErrorType : ErrorType Error where
  Unmarshal body :=
    match decodeJSON body with
    | some (.object ms) =>
      match stringMember (str "kind") ms, stringMember (str "value") ms with
      | some k, some v => .ok { Kind := k, Value := v }
      | _, _ => .error (.errorString (str "json: cannot unmarshal into Go struct field"))
    | some _ => .error (.errorString (str "json: cannot unmarshal into Go value of type Error"))
    | none => .error (.errorString (str "invalid character looking for beginning of value"))
  String e := e.Kind ++ str ": " ++ e.Value

/-- A response body that has not been read: the given bytes, ending with `io.EOF`. -/
def freshBody (data : GoString) : Body := { pending := data, readErr := none, closed := false }

/-- A transport that counts its calls and answers every request with the same
response. -/
def constTransport (resp : Response) : HTTPClient Nat where
  Do _ n := (.ok resp, n + 1)

/-- A transport that counts its calls and fails on every request. -/
def failingTransport (err : GoError) : HTTPClient Nat where
  Do _ n := (.error err, n + 1)

/-! ## Theorems -/

/-- Go's division by 100, truncating toward zero, in terms of the floor division. -/
theorem tdiv_hundred (a : Int) :
    a.tdiv 100 = if 0 ≤ a then a / 100 else -((-a) / 100) := by
  split
  · rename_i h
    exact Int.tdiv_eq_ediv h (by decide)
  · rename_i h
    have h1 : (0 : Int) ≤ -a := by omega
    have h2 := Int.tdiv_eq_ediv h1 (show (0 : Int) ≤ 100 by decide)
    rw [← h2, Int.neg_tdiv]
    simp

/-- The status class is 2 exactly for the codes 200 to 299. -/
theorem statusType_two_iff (a : Int) : a.tdiv 100 = 2 ↔ 200 ≤ a ∧ a ≤ 299 := by
  rw [tdiv_hundred]
  split <;> omega

/-- The status class is 3, 4 or 5 exactly for the codes 300 to 599. -/
theorem statusType_error_iff (a : Int) :
    (a.tdiv 100 = 3 ∨ a.tdiv 100 = 4 ∨ a.tdiv 100 = 5) ↔ 300 ≤ a ∧ a ≤ 599 := by
  rw [tdiv_hundred]
  split <;> omega

/-- C1: `handleResponse` returns nil exactly when the status class is 2, that is for
the codes 200 to 299, whatever the body; on that path it makes no call (the body is
not read, nothing is decoded) and leaves the body as it was. -/
theorem handleResponse_nil_iff {E : Type} (api : ErrorType E) (resp : Response) :
    ((handleResponse api resp).err = none ↔ resp.StatusCode.tdiv 100 = 2) ∧
    (resp.StatusCode.tdiv 100 = 2 ↔ 200 ≤ resp.StatusCode ∧ resp.StatusCode ≤ 299) ∧
    ((handleResponse api resp).err = none →
      (handleResponse api resp).trace = [] ∧ (handleResponse api resp).body = resp.Body) := by
  refine ⟨?_, statusType_two_iff _, ?_⟩
  · unfold handleResponse
    by_cases h2 : resp.StatusCode.tdiv 100 = 2
    · simp [h2]
    · simp only [h2, if_false, iff_false]
      split
      · split
        · simp
        · split <;> simp
      · simp
  · unfold handleResponse
    by_cases h2 : resp.StatusCode.tdiv 100 = 2
    · simp [h2]
    · simp only [h2, if_false]
      split
      · split
        · simp
        · split <;> simp
      · simp

/-- C1, at the codes 200, 0, -250 and 600 with a body that is not JSON. -/
theorem handleResponse_nil_iff_witness :
    (handleResponse specErrorType ⟨200, freshBody (str "not json")⟩).err = none ∧
    (handleResponse specErrorType ⟨200, freshBody (str "not json")⟩).body
      = freshBody (str "not json") ∧
    (handleResponse specErrorType ⟨0, freshBody (str "not json")⟩).err ≠ none ∧
    (handleResponse specErrorType ⟨-250, freshBody (str "not json")⟩).err ≠ none ∧
    (handleResponse specErrorType ⟨600, freshBody (str "not json")⟩).err ≠ none := by
  have h200 := handleResponse_nil_iff specErrorType ⟨200, freshBody (str "not json")⟩
  have h0 := handleResponse_nil_iff specErrorType ⟨0, freshBody (str "not json")⟩
  have hneg := handleResponse_nil_iff specErrorType ⟨-250, freshBody (str "not json")⟩
  have h600 := handleResponse_nil_iff specErrorType ⟨600, freshBody (str "not json")⟩
  have e200 := h200.1.2 (h200.2.1.2 (by decide))
  refine ⟨e200, (h200.2.2 e200).2, ?_, ?_, ?_⟩
  · intro h
    exact absurd (h0.2.1.1 (h0.1.1 h)) (by decide)
  · intro h
    exact absurd (hneg.2.1.1 (hneg.1.1 h)) (by decide)
  · intro h
    exact absurd (h600.2.1.1 (h600.1.1 h)) (by decide)

/-- C2: for a status code from 300 to 599 whose body reads to the end and decodes to
`e`, `handleResponse` returns the error whose text is `fleetlock error: ` followed by
exactly `e.String()`; the status code plays no further part. -/
theorem handleResponse_protocol_error {E : Type} (api : ErrorType E) (resp : Response) (e : E)
    (hc : 300 ≤ resp.StatusCode ∧ resp.StatusCode ≤ 599)
    (hread : resp.Body.readErr = none)
    (hdec : api.Unmarshal resp.Body.pending = .ok e) :
    (handleResponse api resp).err
      = some (.errorString (str "fleetlock error: " ++ api.String e)) ∧
    ∀ quote : GoString → GoString,
      (handleResponse api resp).err.map (GoError.Error quote)
        = some (str "fleetlock error: " ++ api.String e) := by
  have h3 := (statusType_error_iff resp.StatusCode).2 hc
  have h2 : ¬ resp.StatusCode.tdiv 100 = 2 := by
    intro h
    have := (statusType_two_iff resp.StatusCode).1 h
    omega
  have key : (handleResponse api resp).err
      = some (.errorString (str "fleetlock error: " ++ api.String e)) := by
    unfold handleResponse
    simp only [h2, h3, if_true, if_false, Body.ReadAll, hread, hdec]
  refine ⟨key, ?_⟩
  intro quote
  rw [key]
  rfl

/-- C2, at status 409 with an `already_locked` error body. -/
theorem handleResponse_protocol_error_witness :
    (handleResponse specErrorType
        ⟨409, freshBody (str "\x7b\"kind\":\"already_locked\",\"value\":\"slot taken\"\x7d")⟩).err
      = some (.errorString (str "fleetlock error: already_locked: slot taken")) :=
  (handleResponse_protocol_error specErrorType
    ⟨409, freshBody (str "\x7b\"kind\":\"already_locked\",\"value\":\"slot taken\"\x7d")⟩
    ⟨str "already_locked", str "slot taken"⟩ (by decide) rfl rfl).1

/-- The text of a wrapped error starts with the text put in front of it. -/
theorem wrapError_text (quote : GoString → GoString) (pre : GoString) (err : GoError) :
    (GoError.wrapError pre err).Error quote = pre ++ err.Error quote := rfl

/-- C3: for a status code from 300 to 599, when reading the body fails with `err` the
result wraps `err` behind `reading body: `, and when the body reads to the end but
decoding it fails with `err` the result wraps `err` behind `unmarshalling error: `;
in both cases `errors.Unwrap` gives `err` back and the text does not start with
`fleetlock error: `. -/
theorem handleResponse_decode_error {E : Type} (api : ErrorType E) (resp : Response)
    (err : GoError)
    (hc : 300 ≤ resp.StatusCode ∧ resp.StatusCode ≤ 599)
    (hfail : resp.Body.readErr = some err ∨
      (resp.Body.readErr = none ∧ api.Unmarshal resp.Body.pending = .error err)) :
    (resp.Body.readErr = some err →
      (handleResponse api resp).err = some (.wrapError (str "reading body: ") err)) ∧
    (resp.Body.readErr = none →
      (handleResponse api resp).err = some (.wrapError (str "unmarshalling error: ") err)) ∧
    (handleResponse api resp).err.bind GoError.Unwrap = some err ∧
    (∀ t, (handleResponse api resp).err ≠ some (.errorString (str "fleetlock error: " ++ t))) ∧
    ∀ (quote : GoString → GoString) (t : GoString),
      (handleResponse api resp).err.map (GoError.Error quote)
        ≠ some (str "fleetlock error: " ++ t) := by
  have h3 := (statusType_error_iff resp.StatusCode).2 hc
  have h2 : ¬ resp.StatusCode.tdiv 100 = 2 := by
    intro h
    have := (statusType_two_iff resp.StatusCode).1 h
    omega
  have hr : ∀ e1, resp.Body.readErr = some e1 →
      (handleResponse api resp).err = some (.wrapError (str "reading body: ") e1) := by
    intro e1 h1
    unfold handleResponse
    simp only [h2, h3, if_true, if_false, Body.ReadAll, h1]
  have hu : ∀ e1, resp.Body.readErr = none → api.Unmarshal resp.Body.pending = .error e1 →
      (handleResponse api resp).err = some (.wrapError (str "unmarshalling error: ") e1) := by
    intro e1 h1 h4
    unfold handleResponse
    simp only [h2, h3, if_true, if_false, Body.ReadAll, h1, h4]
  have hf : str "fleetlock error: " = (0x66 : Byte) :: str "leetlock error: " := by decide
  have hrb : str "reading body: " = (0x72 : Byte) :: str "eading body: " := by decide
  have hub : str "unmarshalling error: " = (0x75 : Byte) :: str "nmarshalling error: " := by
    decide
  rcases hfail with h1 | ⟨h1, h4⟩
  · have key := hr err h1
    refine ⟨fun _ => key, ?_, ?_, ?_, ?_⟩
    · intro h
      rw [h1] at h
      cases h
    · rw [key]
      rfl
    · intro t
      rw [key]
      simp
    · intro quote t
      rw [key]
      simp only [Option.map_some', wrapError_text, ne_eq, Option.some.injEq, hf, hrb,
        List.cons_append, List.cons.injEq]
      intro h
      exact absurd h.1 (by decide)
  · have key := hu err h1 h4
    refine ⟨?_, fun _ => key, ?_, ?_, ?_⟩
    · intro h
      rw [h1] at h
      cases h
    · rw [key]
      rfl
    · intro t
      rw [key]
      simp
    · intro quote t
      rw [key]
      simp only [Option.map_some', wrapError_text, ne_eq, Option.some.injEq, hf, hub,
        List.cons_append, List.cons.injEq]
      intro h
      exact absurd h.1 (by decide)

/-- C3, at status 500 with a body that is not JSON. -/
theorem handleResponse_decode_error_witness :
    (handleResponse specErrorType ⟨500, freshBody (str "Internal Server Error")⟩).err
      = some (.wrapError (str "unmarshalling error: ")
          (.errorString (str "invalid character looking for beginning of value"))) :=
  (handleResponse_decode_error specErrorType ⟨500, freshBody (str "Internal Server Error")⟩
    (.errorString (str "invalid character looking for beginning of value"))
    (by decide) (Or.inr ⟨rfl, rfl⟩)).2.1 rfl


/-- The value of a digit byte. -/
theorem digitByte_val (d : Nat) : (digitByte d).val = 0x30 + d % 10 := by
  simp only [digitByte, Fin.ofNat, Nat.succ_eq_add_one]
  omega

/-- The digits written by `fmtDigits` read back as the number. -/
theorem fmtDigits_spec : ∀ (fuel u : Nat) (acc : GoString), u ≤ fuel →
    ∃ ds : GoString, fmtDigits fuel u acc = ds ++ acc ∧ ds ≠ [] ∧
      (∀ b ∈ ds, 0x30 ≤ b.val ∧ b.val ≤ 0x39) ∧
      ∀ (a : Nat) (rest : GoString),
        readDigits (ds ++ rest) a = readDigits rest (a * 10 ^ ds.length + u) := by
  intro fuel
  induction fuel with
  | zero =>
    intro u acc hu
    have hu0 : u = 0 := by omega
    subst hu0
    refine ⟨[digitByte 0], rfl, by simp, ?_, ?_⟩
    · intro b hb
      simp only [List.mem_singleton] at hb
      subst hb
      rw [digitByte_val]
      omega
    · intro a rest
      simp [readDigits, digitByte_val]
  | succ fuel ih =>
    intro u acc hu
    by_cases h10 : 10 ≤ u
    · obtain ⟨ds, h1, _, h3, h4⟩ := ih (u / 10) (digitByte (u % 10) :: acc) (by omega)
      refine ⟨ds ++ [digitByte (u % 10)], ?_, by simp, ?_, ?_⟩
      · simp [fmtDigits, h10, h1]
      · intro b hb
        rcases List.mem_append.1 hb with hb | hb
        · exact h3 b hb
        · simp only [List.mem_singleton] at hb
          subst hb
          rw [digitByte_val]
          omega
      · intro a rest
        have h5 := h4 a (digitByte (u % 10) :: rest)
        rw [List.append_assoc, List.singleton_append, h5]
        have hd := digitByte_val (u % 10)
        have hlt : 0x30 ≤ (digitByte (u % 10)).val ∧ (digitByte (u % 10)).val ≤ 0x39 := by
          omega
        simp only [readDigits, hlt, and_self, if_true]
        congr 1
        rw [hd, List.length_append, List.length_singleton, pow_succ]
        have := Nat.div_add_mod u 10
        have e : 48 + u % 10 % 10 - 48 = u % 10 := by omega
        rw [e]
        nlinarith [this]
    · refine ⟨[digitByte u], by simp [fmtDigits, h10], by simp, ?_, ?_⟩
      · intro b hb
        simp only [List.mem_singleton] at hb
        subst hb
        rw [digitByte_val]
        omega
      · intro a rest
        have hd := digitByte_val u
        have hlt : 0x30 ≤ (digitByte u).val ∧ (digitByte u).val ≤ 0x39 := by omega
        simp only [List.singleton_append, readDigits, hlt, and_self, if_true, List.length_singleton,
          pow_one]
        congr 1
        omega

/-- The text of `fmtInteger` reads back as the number: the rendering is the decimal
rendering of exactly that number. -/
theorem readInteger_fmtInteger (n : Int) : readInteger (fmtInteger n) = some n := by
  obtain ⟨ds, h1, h2, h3, h4⟩ := fmtDigits_spec n.natAbs n.natAbs [] (le_refl _)
  have h5 := h4 0 []
  simp only [List.append_nil, zero_mul, zero_add, readDigits] at h5 h1
  unfold fmtInteger
  rw [h1]
  by_cases hn : n < 0
  · simp only [hn, if_true, readInteger]
    cases ds with
    | nil => exact absurd rfl h2
    | cons d ds =>
      have e45 : ((0x2d : Byte).val = 0x2d) := rfl
      simp only [e45, if_true, h5, Option.map_some']
      congr 1
      omega
  · simp only [hn, if_false]
    cases ds with
    | nil => exact absurd rfl h2
    | cons d ds =>
      have hd := h3 d (by simp)
      have hne : ¬ d.val = 0x2d := by omega
      simp only [readInteger, hne, if_false, h5, Option.map_some']
      congr 1
      omega

/-- The status class is none of 2, 3, 4, 5 exactly for the codes below 200 and from
600 on. -/
theorem statusType_other_iff (a : Int) :
    (a.tdiv 100 ≠ 2 ∧ a.tdiv 100 ≠ 3 ∧ a.tdiv 100 ≠ 4 ∧ a.tdiv 100 ≠ 5) ↔
      (a < 200 ∨ 600 ≤ a) := by
  rw [tdiv_hundred]
  split <;> omega

/-- C4: for a status code `c` whose class is none of 2, 3, 4, 5 (below 200, zero and
negative codes included, or from 600 on), `handleResponse` returns the error whose
text is `unexpected status code: ` followed by the decimal rendering of `c`, which
reads back as exactly `c`; it makes no call and leaves the body as it was. -/
theorem handleResponse_unexpected_status {E : Type} (api : ErrorType E) (resp : Response)
    (hc : resp.StatusCode.tdiv 100 ≠ 2 ∧ resp.StatusCode.tdiv 100 ≠ 3 ∧
      resp.StatusCode.tdiv 100 ≠ 4 ∧ resp.StatusCode.tdiv 100 ≠ 5) :
    handleResponse api resp
      = ⟨some (.errorString (str "unexpected status code: " ++ fmtInteger resp.StatusCode)),
          resp.Body, []⟩ ∧
    (∀ quote : GoString → GoString,
      (handleResponse api resp).err.map (GoError.Error quote)
        = some (str "unexpected status code: " ++ fmtInteger resp.StatusCode)) ∧
    readInteger (fmtInteger resp.StatusCode) = some resp.StatusCode ∧
    (resp.StatusCode < 200 ∨ 600 ≤ resp.StatusCode) := by
  have key : handleResponse api resp
      = ⟨some (.errorString (str "unexpected status code: " ++ fmtInteger resp.StatusCode)),
          resp.Body, []⟩ := by
    unfold handleResponse
    simp only [hc.1, hc.2.1, hc.2.2.1, hc.2.2.2, or_self, if_false]
  refine ⟨key, ?_, readInteger_fmtInteger _, (statusType_other_iff _).1 hc⟩
  intro quote
  rw [key]
  rfl

/-- C4, at status 101. -/
theorem handleResponse_unexpected_status_witness :
    handleResponse specErrorType ⟨101, freshBody (str "Switching Protocols")⟩
      = ⟨some (.errorString (str "unexpected status code: 101")),
          freshBody (str "Switching Protocols"), []⟩ :=
  (handleResponse_unexpected_status specErrorType ⟨101, freshBody (str "Switching Protocols")⟩
    (by decide)).1

/-- C10: `handleResponse` leaves the body unread and open on the success path (status
200), on the unexpected-status path (status 101), and open when reading the body
fails (status 500); only a body that was read to the end is closed. -/
theorem handleResponse_leaves_body_open :
    (handleResponse specErrorType ⟨200, freshBody (str "ok")⟩).body = freshBody (str "ok") ∧
    (handleResponse specErrorType ⟨200, freshBody (str "ok")⟩).body.closed = false ∧
    (handleResponse specErrorType ⟨101, freshBody (str "ok")⟩).body.closed = false ∧
    (handleResponse specErrorType
      ⟨500, ⟨str "ok", some (.errorString (str "unexpected EOF")), false⟩⟩).body.closed = false ∧
    (handleResponse specErrorType ⟨500, freshBody (str "ok")⟩).body = ⟨[], none, true⟩ := by
  refine ⟨?_, ?_, ?_, ?_, ?_⟩ <;> rfl

/-- What `generateRequest` returns, by what `url.Parse` makes of the base URL, a slash
and the endpoint: on a parsed URL the request with method POST, that URL (an empty
port removed from its host), the one header added, and the encoded payload as body;
on an error that error wrapped behind `building request: `. -/
theorem generateRequest_eq {σ : Type} (c : Client σ) (endpoint : GoString) :
    ∃ body, Marshal { ClientParams := some { ID := c.id, Group := c.group } } = .ok body ∧
      generateRequest c endpoint
        = match Parse (c.baseServerURL ++ str "/" ++ endpoint) with
          | .ok u =>
            .ok { Method := str "POST", URL := { u with Host := removeEmptyPort u.Host },
                  Host := removeEmptyPort u.Host,
                  Header := Header.Add [] (str "fleet-lock-protocol") (str "true"),
                  Body := body }
          | .error err => .error (.wrapError (str "building request: ") err) := by
  refine ⟨_, rfl, ?_⟩
  have hm : validMethod (str "POST") = true := by decide
  have hp : ¬ (str "POST" = []) := by decide
  unfold generateRequest
  simp only [Marshal, NewRequest, hp, if_false, hm, Bool.not_true, Bool.false_eq_true]
  cases Parse (c.baseServerURL ++ str "/" ++ endpoint) <;> rfl

/-- What `generateRequest` returns when it returns a request. -/
theorem generateRequest_ok {σ : Type} (c : Client σ) (endpoint : GoString) (req : Request)
    (h : generateRequest c endpoint = .ok req) :
    ∃ body u, Marshal { ClientParams := some { ID := c.id, Group := c.group } } = .ok body ∧
      Parse (c.baseServerURL ++ str "/" ++ endpoint) = .ok u ∧
      req = { Method := str "POST", URL := { u with Host := removeEmptyPort u.Host },
              Host := removeEmptyPort u.Host,
              Header := Header.Add [] (str "fleet-lock-protocol") (str "true"),
              Body := body } := by
  obtain ⟨body, hbody, heq⟩ := generateRequest_eq c endpoint
  rw [heq] at h
  cases hP : Parse (c.baseServerURL ++ str "/" ++ endpoint) with
  | error err =>
    rw [hP] at h
    cases h
  | ok u =>
    rw [hP] at h
    cases h
    exact ⟨body, u, hbody, rfl, rfl⟩

/-- The function `handleResponse` does not call the transport. -/
theorem handleResponse_no_Do {E : Type} (api : ErrorType E) (resp : Response) (req : Request) :
    Effect.Do req ∉ (handleResponse api resp).trace := by
  unfold handleResponse
  by_cases h2 : resp.StatusCode.tdiv 100 = 2
  · simp [h2]
  · by_cases h3 : resp.StatusCode.tdiv 100 = 3 ∨ resp.StatusCode.tdiv 100 = 4 ∨
        resp.StatusCode.tdiv 100 = 5
    · simp only [h2, h3, if_true, if_false]
      split
      · simp
      · split <;> simp
    · simp [h2, h3]

/-- When `generateRequest` returns a request, `RecursiveLock` calls the transport with
it, once, and leaves the transport in the state after that call. -/
theorem RecursiveLock_of_request {σ E : Type} (api : ErrorType E) (c : Client σ) (s : σ)
    (req : Request) (h : generateRequest c (str "v1/pre-reboot") = .ok req) :
    (∃ tail, (RecursiveLock api c s).trace = .Do req :: tail ∧ ∀ q, Effect.Do q ∉ tail) ∧
    (RecursiveLock api c s).state = (c.http.Do req s).2 := by
  unfold RecursiveLock
  rw [h]
  simp only
  rcases hd : c.http.Do req s with ⟨r, s1⟩
  cases r with
  | error err => exact ⟨⟨[], rfl, by simp⟩, rfl⟩
  | ok resp => exact ⟨⟨_, rfl, fun q => handleResponse_no_Do api resp q⟩, rfl⟩

/-- When `generateRequest` returns a request, `UnlockIfHeld` calls the transport with
it, once, and leaves the transport in the state after that call. -/
theorem UnlockIfHeld_of_request {σ E : Type} (api : ErrorType E) (c : Client σ) (s : σ)
    (req : Request) (h : generateRequest c (str "v1/steady-state") = .ok req) :
    (∃ tail, (UnlockIfHeld api c s).trace = .Do req :: tail ∧ ∀ q, Effect.Do q ∉ tail) ∧
    (UnlockIfHeld api c s).state = (c.http.Do req s).2 := by
  unfold UnlockIfHeld
  rw [h]
  simp only
  rcases hd : c.http.Do req s with ⟨r, s1⟩
  cases r with
  | error err => exact ⟨⟨[], rfl, by simp⟩, rfl⟩
  | ok resp => exact ⟨⟨_, rfl, fun q => handleResponse_no_Do api resp q⟩, rfl⟩

/-- C7, as amended: when `url.Parse` accepts the base URL, one slash and `v1/pre-reboot`
joined as they are, `RecursiveLock` calls the transport exactly once, with the request
whose method is POST and whose URL is what `url.Parse` made of that string (an empty
port removed from the host); when `url.Parse` refuses it the transport is not called.
`UnlockIfHeld` does the same with `v1/steady-state`, and the two requests have the
same method, header and body. -/
theorem operation_request_target {σ E : Type} (api : ErrorType E) (c : Client σ) (s : σ) :
    ∃ body, Marshal { ClientParams := some { ID := c.id, Group := c.group } } = .ok body ∧
    (∀ u, Parse (c.baseServerURL ++ str "/" ++ str "v1/pre-reboot") = .ok u →
      (∃ tail, (RecursiveLock api c s).trace
          = .Do { Method := str "POST", URL := { u with Host := removeEmptyPort u.Host },
                  Host := removeEmptyPort u.Host,
                  Header := [(str "Fleet-Lock-Protocol", [str "true"])], Body := body } :: tail ∧
        ∀ q, Effect.Do q ∉ tail) ∧
      (RecursiveLock api c s).state
        = (c.http.Do { Method := str "POST", URL := { u with Host := removeEmptyPort u.Host },
                       Host := removeEmptyPort u.Host,
                       Header := [(str "Fleet-Lock-Protocol", [str "true"])],
                       Body := body } s).2) ∧
    (∀ err, Parse (c.baseServerURL ++ str "/" ++ str "v1/pre-reboot") = .error err →
      (RecursiveLock api c s).trace = [] ∧ (RecursiveLock api c s).state = s) ∧
    (∀ u, Parse (c.baseServerURL ++ str "/" ++ str "v1/steady-state") = .ok u →
      (∃ tail, (UnlockIfHeld api c s).trace
          = .Do { Method := str "POST", URL := { u with Host := removeEmptyPort u.Host },
                  Host := removeEmptyPort u.Host,
                  Header := [(str "Fleet-Lock-Protocol", [str "true"])], Body := body } :: tail ∧
        ∀ q, Effect.Do q ∉ tail) ∧
      (UnlockIfHeld api c s).state
        = (c.http.Do { Method := str "POST", URL := { u with Host := removeEmptyPort u.Host },
                       Host := removeEmptyPort u.Host,
                       Header := [(str "Fleet-Lock-Protocol", [str "true"])],
                       Body := body } s).2) ∧
    (∀ err, Parse (c.baseServerURL ++ str "/" ++ str "v1/steady-state") = .error err →
      (UnlockIfHeld api c s).trace = [] ∧ (UnlockIfHeld api c s).state = s) ∧
    c.baseServerURL ++ str "/" ++ str "v1/pre-reboot" = c.baseServerURL ++ str "/v1/pre-reboot" ∧
    c.baseServerURL ++ str "/" ++ str "v1/steady-state"
      = c.baseServerURL ++ str "/v1/steady-state" := by
  have e1 : str "/" ++ str "v1/pre-reboot" = str "/v1/pre-reboot" := by decide
  have e2 : str "/" ++ str "v1/steady-state" = str "/v1/steady-state" := by decide
  have hh : Header.Add [] (str "fleet-lock-protocol") (str "true")
      = [(str "Fleet-Lock-Protocol", [str "true"])] := by decide
  obtain ⟨body, hbody, hpre⟩ := generateRequest_eq c (str "v1/pre-reboot")
  obtain ⟨body2, hbody2, hsteady⟩ := generateRequest_eq c (str "v1/steady-state")
  rw [hbody] at hbody2
  cases hbody2
  rw [hh] at hpre hsteady
  refine ⟨body, hbody, ?_, ?_, ?_, ?_, ?_, ?_⟩
  · intro u hu
    rw [hu] at hpre
    exact RecursiveLock_of_request api c s _ hpre
  · intro err hu
    rw [hu] at hpre
    unfold RecursiveLock
    rw [hpre]
    exact ⟨rfl, rfl⟩
  · intro u hu
    rw [hu] at hsteady
    exact UnlockIfHeld_of_request api c s _ hsteady
  · intro err hu
    rw [hu] at hsteady
    unfold UnlockIfHeld
    rw [hsteady]
    exact ⟨rfl, rfl⟩
  · rw [List.append_assoc, e1]
  · rw [List.append_assoc, e2]

/-- C7 as amended, for a client of `http://host` whose transport answers 200: each
operation calls the transport once, with a POST to what `url.Parse` makes of the base
URL, a slash and its path, which is written back as that very string; a base URL
that ends in a slash keeps it, so the path starts with two. -/
theorem operation_request_target_witness :
    Parse (str "http://host" ++ str "/" ++ str "v1/pre-reboot")
      = .ok { Scheme := str "http", Host := str "host", Path := str "/v1/pre-reboot" } ∧
    Parse (str "http://host" ++ str "/" ++ str "v1/steady-state")
      = .ok { Scheme := str "http", Host := str "host", Path := str "/v1/steady-state" } ∧
    (RecursiveLock specErrorType
        (⟨str "http://host", str "g", str "n", constTransport ⟨200, freshBody []⟩⟩ : Client Nat)
        0).trace
      = [.Do ⟨str "POST", { Scheme := str "http", Host := str "host", Path := str "/v1/pre-reboot" },
          str "host", [(str "Fleet-Lock-Protocol", [str "true"])],
          str "\x7b\"client_params\":\x7b\"id\":\"n\",\"group\":\"g\"\x7d\x7d"⟩] ∧
    (RecursiveLock specErrorType
        (⟨str "http://host", str "g", str "n", constTransport ⟨200, freshBody []⟩⟩ : Client Nat)
        0).state = 1 ∧
    (UnlockIfHeld specErrorType
        (⟨str "http://host", str "g", str "n", constTransport ⟨200, freshBody []⟩⟩ : Client Nat)
        0).trace
      = [.Do ⟨str "POST",
          { Scheme := str "http", Host := str "host", Path := str "/v1/steady-state" },
          str "host", [(str "Fleet-Lock-Protocol", [str "true"])],
          str "\x7b\"client_params\":\x7b\"id\":\"n\",\"group\":\"g\"\x7d\x7d"⟩] ∧
    (UnlockIfHeld specErrorType
        (⟨str "http://host", str "g", str "n", constTransport ⟨200, freshBody []⟩⟩ : Client Nat)
        0).state = 1 ∧
    URL.String { Scheme := str "http", Host := str "host", Path := str "/v1/pre-reboot" }
      = str "http://host" ++ str "/v1/pre-reboot" ∧
    URL.String { Scheme := str "http", Host := str "host", Path := str "/v1/steady-state" }
      = str "http://host" ++ str "/v1/steady-state" ∧
    (Parse (str "http://host/" ++ str "/" ++ str "v1/pre-reboot")).toOption.map URL.String
      = some (str "http://host//v1/pre-reboot") := by
  obtain ⟨_, _, h1, _, h3, _, _, _⟩ := operation_request_target specErrorType
    (⟨str "http://host", str "g", str "n", constTransport ⟨200, freshBody []⟩⟩ : Client Nat) 0
  exact ⟨rfl, rfl, rfl, (h1 _ rfl).2.trans rfl, rfl, (h3 _ rfl).2.trans rfl, by decide,
    by decide, rfl⟩

/-- C7 fails as stated: `New` accepts the base URL `http://host/a b`, and the URL of
the request that `RecursiveLock` hands to the transport is written `http://host/a%20b`
followed by the path, with the space escaped, not the base URL followed by the
path. -/
theorem operation_target_escaped :
    (New (str "http://host/a b") (str "g") (str "n")
      (constTransport ⟨200, freshBody []⟩)).result.toOption.isSome = true ∧
    (RecursiveLock specErrorType
        (⟨str "http://host/a b", str "g", str "n", constTransport ⟨200, freshBody []⟩⟩ :
          Client Nat) 0).trace.map
        (fun e => match e with
          | .Do req => (req.Method, req.URL.String)
          | _ => ([], []))
      = [(str "POST", str "http://host/a%20b/v1/pre-reboot")] ∧
    str "http://host/a%20b/v1/pre-reboot" ≠ str "http://host/a b" ++ str "/v1/pre-reboot" :=
  ⟨rfl, rfl, by decide⟩

/-- C8: the header of a request built by `generateRequest`, for any endpoint, has
exactly one entry, stored under the canonical form of `fleet-lock-protocol`, with the
single value `true`; no value is stored under any other key, `Content-Type`
included. -/
theorem generateRequest_header {σ : Type} (c : Client σ) (endpoint : GoString) (req : Request)
    (h : generateRequest c endpoint = .ok req) :
    req.Header = [(CanonicalMIMEHeaderKey (str "fleet-lock-protocol"), [str "true"])] ∧
    CanonicalMIMEHeaderKey (str "fleet-lock-protocol") = str "Fleet-Lock-Protocol" ∧
    req.Header.length = 1 ∧
    Header.Values req.Header (str "fleet-lock-protocol") = [str "true"] ∧
    Header.Values req.Header (str "Content-Type") = [] ∧
    ∀ key, CanonicalMIMEHeaderKey key ≠ CanonicalMIMEHeaderKey (str "fleet-lock-protocol") →
      Header.Values req.Header key = [] := by
  obtain ⟨body, _, _, _, hreq⟩ := generateRequest_ok c endpoint req h
  have hh : req.Header = [(CanonicalMIMEHeaderKey (str "fleet-lock-protocol"), [str "true"])] := by
    rw [hreq]
    rfl
  refine ⟨hh, by decide, ?_, ?_, ?_, ?_⟩
  · rw [hh]
    rfl
  · rw [hh]
    decide
  · rw [hh]
    decide
  · intro key hkey
    rw [hh]
    simp only [Header.Values, List.find?, decide_eq_true_eq]
    have : ¬ (CanonicalMIMEHeaderKey (str "fleet-lock-protocol") = CanonicalMIMEHeaderKey key) :=
      fun e => hkey e.symm
    simp [this]

/-- C8, for the two endpoints of a client of `http://host`. -/
theorem generateRequest_header_witness :
    (generateRequest (⟨str "http://host", str "g", str "n", failingTransport (.errorString [])⟩ :
        Client Nat) (str "v1/pre-reboot")).toOption.map (fun r => r.Header)
      = some [(str "Fleet-Lock-Protocol", [str "true"])] ∧
    (generateRequest (⟨str "http://host", str "g", str "n", failingTransport (.errorString [])⟩ :
        Client Nat) (str "v1/steady-state")).toOption.map (fun r => r.Header)
      = some [(str "Fleet-Lock-Protocol", [str "true"])] ∧
    Header.Values [(str "Fleet-Lock-Protocol", [str "true"])] (str "fleet-lock-protocol")
      = [str "true"] := by
  refine ⟨rfl, rfl, ?_⟩
  have h := generateRequest_header
    (⟨str "http://host", str "g", str "n", failingTransport (.errorString [])⟩ : Client Nat)
    (str "v1/pre-reboot")
    ⟨str "POST", { Scheme := str "http", Host := str "host", Path := str "/v1/pre-reboot" },
      str "host", [(str "Fleet-Lock-Protocol", [str "true"])],
      str "\x7b\"client_params\":\x7b\"id\":\"n\",\"group\":\"g\"\x7d\x7d"⟩ rfl
  exact h.2.2.2.1

/-- C9: when the transport returns an error for the request of an operation, the
operation returns that error wrapped behind `doing the request: `; the transport was
called once, no body was read, nothing was decoded and no response body is left;
the result is not nil. -/
theorem transport_error_surfaced {σ E : Type} (api : ErrorType E) (c : Client σ) (s s1 : σ)
    (err : GoError) :
    (∀ req, generateRequest c (str "v1/pre-reboot") = .ok req →
      c.http.Do req s = (.error err, s1) →
      (RecursiveLock api c s).err = some (.wrapError (str "doing the request: ") err) ∧
      (RecursiveLock api c s).trace = [.Do req] ∧
      (RecursiveLock api c s).body = none ∧
      (RecursiveLock api c s).state = s1 ∧
      (RecursiveLock api c s).err ≠ none) ∧
    (∀ req, generateRequest c (str "v1/steady-state") = .ok req →
      c.http.Do req s = (.error err, s1) →
      (UnlockIfHeld api c s).err = some (.wrapError (str "doing the request: ") err) ∧
      (UnlockIfHeld api c s).trace = [.Do req] ∧
      (UnlockIfHeld api c s).body = none ∧
      (UnlockIfHeld api c s).state = s1 ∧
      (UnlockIfHeld api c s).err ≠ none) := by
  refine ⟨?_, ?_⟩
  · intro req hreq hdo
    unfold RecursiveLock
    simp only [hreq, hdo]
    simp
  · intro req hreq hdo
    unfold UnlockIfHeld
    simp only [hreq, hdo]
    simp

/-- C9, for a client of `http://host` whose transport refuses the connection. -/
theorem transport_error_surfaced_witness :
    (RecursiveLock specErrorType
      (⟨str "http://host", str "g", str "n",
        failingTransport (.errorString (str "connection refused"))⟩ : Client Nat) 0).err
      = some (.wrapError (str "doing the request: ") (.errorString (str "connection refused"))) ∧
    (UnlockIfHeld specErrorType
      (⟨str "http://host", str "g", str "n",
        failingTransport (.errorString (str "connection refused"))⟩ : Client Nat) 0).err
      = some (.wrapError (str "doing the request: ") (.errorString (str "connection refused"))) ∧
    (UnlockIfHeld specErrorType
      (⟨str "http://host", str "g", str "n",
        failingTransport (.errorString (str "connection refused"))⟩ : Client Nat) 0).state = 1 :=
  have h := transport_error_surfaced specErrorType
    (⟨str "http://host", str "g", str "n",
      failingTransport (.errorString (str "connection refused"))⟩ : Client Nat) 0 1
    (.errorString (str "connection refused"))
  ⟨(h.1 _ rfl rfl).1, (h.2 _ rfl rfl).1, (h.2 _ rfl rfl).2.2.2.1⟩


/-- A string that has a prefix starting with a slash starts with a slash. -/
theorem leading_slash_mono (p s : GoString) (hp : p <+: s)
    (h : hasPrefix p (str "/") = true) : hasPrefix s (str "/") = true := by
  have e : str "/" = [(0x2f : Byte)] := by decide
  rw [hasPrefix, e] at h ⊢
  rw [List.isPrefixOf_iff_prefix] at h ⊢
  exact h.trans hp

/-- The first part of `split` is a prefix of the string. -/
theorem split_fst_initial (s : GoString) (sep : Byte) (cutc : Bool) :
    (split s sep cutc).1 <+: s := by
  unfold split
  split
  · exact List.prefix_refl _
  · rename_i a c t h
    have h1 : a = (s.span (fun b => b != sep)).1 := by rw [h]
    have h2 : (if cutc = true then (a, t) else (a, c :: t)).1 = a := by
      split <;> rfl
    rw [h2, h1, List.span_eq_take_drop]
    exact List.takeWhile_prefix _

/-- Without a scheme and without a leading slash, a request URI is refused. -/
theorem parseHierarchy_no_scheme (url : URL) (rest : GoString) (hs : url.Scheme = [])
    (hslash : hasPrefix rest (str "/") = false) :
    parseHierarchy true url rest = .error (.errorString (str "invalid URI for request")) := by
  unfold parseHierarchy
  simp [hs, hslash]

/-- The function `parse` refuses a request URI in which `getScheme` finds no scheme,
unless it starts with a slash or is the asterisk. -/
theorem parse_no_scheme (base : GoString)
    (hslash : hasPrefix base (str "/") = false) (hstar : base ≠ str "*")
    (hs : getScheme base = .ok ([], base) ∨ ∃ e, getScheme base = .error e) :
    ∃ err, parse base true = .error err := by
  unfold parse
  by_cases hctl : stringContainsCTLByte base = true
  · simp [hctl]
  · by_cases hempty : base = []
    · subst hempty
      exact ⟨_, rfl⟩
    · simp only [hctl, hempty, hstar, false_and, if_false, Bool.false_eq_true]
      rcases hs with hs | ⟨e, hs⟩
      · rw [hs]
        simp only
        have hp : ∀ p : GoString, p <+: base → hasPrefix p (str "/") = false := by
          intro p hp
          by_contra hc
          have := leading_slash_mono p base hp (by simpa using hc)
          rw [hslash] at this
          cases this
        split
        · exact ⟨_, parseHierarchy_no_scheme _ _ rfl (hp _ ( List.take_prefix _ _))⟩
        · exact ⟨_, parseHierarchy_no_scheme _ _ rfl (hp _ (split_fst_initial _ _ _))⟩
      · rw [hs]
        exact ⟨e, rfl⟩

/-- C5, as amended: `New` fails with the error of `url.ParseRequestURI` wrapped behind
`parsing URL: ` for the empty string and for every string in which no scheme is found,
unless the string starts with a slash or is the asterisk; whether it fails or
succeeds it makes no call, and when it succeeds the client holds the base URL, the
group, the identifier and the transport exactly as they were passed. -/
theorem New_rejects_without_scheme {σ : Type} (baseServerURL group id : GoString)
    (t : HTTPClient σ) :
    ((baseServerURL = [] ∨
        (hasPrefix baseServerURL (str "/") = false ∧ baseServerURL ≠ str "*" ∧
          (getScheme baseServerURL = .ok ([], baseServerURL) ∨
            ∃ e, getScheme baseServerURL = .error e))) →
      ∃ err, (New baseServerURL group id t).result
        = .error (.wrapError (str "parsing URL: ")
            (.urlError (str "parse") baseServerURL err))) ∧
    (New baseServerURL group id t).trace = [] ∧
    (∀ c, (New baseServerURL group id t).result = .ok c →
      c.baseServerURL = baseServerURL ∧ c.group = group ∧ c.id = id ∧ c.http = t) := by
  refine ⟨?_, ?_, ?_⟩
  · intro h
    have h1 : ∃ err, parse baseServerURL true = .error err := by
      rcases h with h | ⟨h1, h2, h3⟩
      · subst h
        exact ⟨_, rfl⟩
      · exact parse_no_scheme baseServerURL h1 h2 h3
    obtain ⟨err, herr⟩ := h1
    exact ⟨err, by simp [New, ParseRequestURI, herr]⟩
  · unfold New
    split <;> rfl
  · intro c hc
    unfold New at hc
    split at hc
    · cases hc
    · cases hc
      exact ⟨rfl, rfl, rfl, rfl⟩

/-- C5 as amended, at the empty string and at a string without a scheme. -/
theorem New_rejects_without_scheme_witness :
    (New [] (str "g") (str "n") (failingTransport (.errorString []))).result.toOption.isNone ∧
    (∃ err, (New (str "this is not an URL") (str "g") (str "n")
        (failingTransport (.errorString []))).result
      = .error (.wrapError (str "parsing URL: ")
          (.urlError (str "parse") (str "this is not an URL") err))) :=
  ⟨rfl,
    (New_rejects_without_scheme (str "this is not an URL") (str "g") (str "n")
      (failingTransport (.errorString []))).1 (Or.inr ⟨by decide, by decide, Or.inl rfl⟩)⟩

/-- C5 fails as stated: the absolute path `/foo/bar` has no scheme and no authority,
and `New` accepts it. -/
theorem New_accepts_absolute_path :
    getScheme (str "/foo/bar") = .ok ([], str "/foo/bar") ∧
    (ParseRequestURI (str "/foo/bar")).toOption.map (fun u => (u.Scheme, u.Host, u.Path))
      = some ([], [], str "/foo/bar") ∧
    (New (str "/foo/bar") (str "g") (str "n")
      (failingTransport (.errorString []))).result.toOption.isSome = true :=
  ⟨rfl, rfl, rfl⟩

/-- A scheme without an authority is enough for `url.ParseRequestURI`: `host:8080` is
read as the scheme `host` and the opaque part `8080`, and the asterisk is accepted as
it is. -/
theorem ParseRequestURI_without_authority :
    (ParseRequestURI (str "host:8080")).toOption.map (fun u => (u.Scheme, u.Opaque, u.Host))
      = some (str "host", str "8080", []) ∧
    (ParseRequestURI (str "*")).toOption.map (fun u => (u.Scheme, u.Host, u.Path))
      = some ([], [], str "*") :=
  ⟨rfl, rfl⟩

/-- A byte is the byte of its own value. -/
theorem ofNat_val_eq (b : Byte) (n : Nat) (h : n = b.val) : (Fin.ofNat n : Byte) = b := by
  apply Fin.ext
  simp only [Fin.ofNat, Nat.succ_eq_add_one]
  have := b.isLt
  omega

/-- The shapes of a successful decoding of a rune that starts outside ASCII. -/
theorem decode_cases (b : Byte) (rest : GoString) (hb : 0x80 ≤ b.val)
    (hv : ¬ ((DecodeRuneInString (b :: rest)).1 = RuneError ∧
      (DecodeRuneInString (b :: rest)).2 = 1)) :
    (∃ s1 r1, rest = s1 :: r1 ∧ 0xC2 ≤ b.val ∧ b.val ≤ 0xDF ∧ 0x80 ≤ s1.val ∧ s1.val ≤ 0xBF ∧
      DecodeRuneInString (b :: rest) = (b.val % 0x20 * 0x40 + s1.val % 0x40, 2)) ∨
    (∃ s1 s2 r2, rest = s1 :: s2 :: r2 ∧ 0xE0 ≤ b.val ∧ b.val ≤ 0xEF ∧
      0x80 ≤ s1.val ∧ s1.val ≤ 0xBF ∧ (b.val = 0xE0 → 0xA0 ≤ s1.val) ∧
      (b.val = 0xED → s1.val ≤ 0x9F) ∧ 0x80 ≤ s2.val ∧ s2.val ≤ 0xBF ∧
      DecodeRuneInString (b :: rest)
        = (b.val % 0x10 * 0x1000 + s1.val % 0x40 * 0x40 + s2.val % 0x40, 3)) ∨
    (∃ s1 s2 s3 r3, rest = s1 :: s2 :: s3 :: r3 ∧ 0xF0 ≤ b.val ∧ b.val ≤ 0xF4 ∧
      0x80 ≤ s1.val ∧ s1.val ≤ 0xBF ∧ (b.val = 0xF0 → 0x90 ≤ s1.val) ∧
      (b.val = 0xF4 → s1.val ≤ 0x8F) ∧ 0x80 ≤ s2.val ∧ s2.val ≤ 0xBF ∧
      0x80 ≤ s3.val ∧ s3.val ≤ 0xBF ∧
      DecodeRuneInString (b :: rest)
        = (b.val % 0x08 * 0x40000 + s1.val % 0x40 * 0x1000 + s2.val % 0x40 * 0x40 +
            s3.val % 0x40, 4)) := by
  have hb1 : ¬ b.val < 0x80 := by omega
  by_cases hxx : b.val < 0xC2 ∨ 0xF4 < b.val
  · exfalso
    apply hv
    simp [DecodeRuneInString, hb1, hxx]
  · cases rest with
    | nil =>
      exfalso
      apply hv
      simp only [DecodeRuneInString, hb1, hxx, if_false]
      split <;> simp
    | cons s1 r1 =>
      by_cases h2 : b.val < 0xE0
      · left
        by_cases hs1 : s1.val < 0x80 ∨ 0xBF < s1.val
        · exfalso
          apply hv
          have e1 : ¬ b.val = 0xE0 := by omega
          have e2 : ¬ b.val = 0xF0 := by omega
          have e3 : ¬ b.val = 0xED := by omega
          have e4 : ¬ b.val = 0xF4 := by omega
          simp [DecodeRuneInString, hb1, hxx, h2, e1, e2, e3, e4, hs1]
        · refine ⟨s1, r1, rfl, by omega, by omega, by omega, by omega, ?_⟩
          have e1 : ¬ b.val = 0xE0 := by omega
          have e2 : ¬ b.val = 0xF0 := by omega
          have e3 : ¬ b.val = 0xED := by omega
          have e4 : ¬ b.val = 0xF4 := by omega
          simp [DecodeRuneInString, hb1, hxx, h2, e1, e2, e3, e4, hs1]
      · by_cases hlo : (b.val = 0xE0 ∧ s1.val < 0xA0) ∨ (b.val = 0xF0 ∧ s1.val < 0x90) ∨
            s1.val < 0x80
        · exfalso
          apply hv
          have hbad : (s1.val < (if b.val = 0xE0 then 0xA0 else if b.val = 0xF0 then 0x90 else 0x80)
                ∨ (if b.val = 0xED then 0x9F else if b.val = 0xF4 then 0x8F else 0xBF) < s1.val) := by
            left
            split
            · omega
            · split <;> omega
          simp [DecodeRuneInString, hb1, hxx, h2, hbad]
        · by_cases hhi : (b.val = 0xED ∧ 0x9F < s1.val) ∨ (b.val = 0xF4 ∧ 0x8F < s1.val) ∨
              0xBF < s1.val
          · exfalso
            apply hv
            have hbad : (s1.val < (if b.val = 0xE0 then 0xA0 else if b.val = 0xF0 then 0x90 else 0x80)
                  ∨ (if b.val = 0xED then 0x9F else if b.val = 0xF4 then 0x8F else 0xBF) < s1.val) := by
              right
              split
              · omega
              · split <;> omega
            simp [DecodeRuneInString, hb1, hxx, h2, hbad]
          · have hr : ¬ (s1.val < (if b.val = 0xE0 then 0xA0 else if b.val = 0xF0 then 0x90 else 0x80)
                ∨ (if b.val = 0xED then 0x9F else if b.val = 0xF4 then 0x8F else 0xBF) < s1.val) := by
              intro h
              rcases h with h | h
              · split at h
                · omega
                · split at h <;> omega
              · split at h
                · omega
                · split at h <;> omega
            cases r1 with
            | nil =>
              exfalso
              apply hv
              by_cases h3 : b.val < 0xF0 <;> simp [DecodeRuneInString, hb1, hxx, h2, h3, hr]
            | cons s2 r2 =>
              by_cases hs2 : s2.val < 0x80 ∨ 0xBF < s2.val
              · exfalso
                apply hv
                by_cases h3 : b.val < 0xF0 <;>
                  simp [DecodeRuneInString, hb1, hxx, h2, h3, hr, hs2]
              · by_cases h3 : b.val < 0xF0
                · right
                  left
                  refine ⟨s1, s2, r2, rfl, by omega, by omega, by omega, by omega, by omega,
                    by omega, by omega, by omega, ?_⟩
                  simp [DecodeRuneInString, hb1, hxx, h2, h3, hr, hs2]
                · cases r2 with
                  | nil =>
                    exfalso
                    apply hv
                    simp [DecodeRuneInString, hb1, hxx, h2, h3, hr, hs2]
                  | cons s3 r3 =>
                    by_cases hs3 : s3.val < 0x80 ∨ 0xBF < s3.val
                    · exfalso
                      apply hv
                      simp [DecodeRuneInString, hb1, hxx, h2, h3, hr, hs2, hs3]
                    · right
                      right
                      refine ⟨s1, s2, s3, r3, rfl, by omega, by omega, by omega, by omega,
                        by omega, by omega, by omega, by omega, by omega, by omega, ?_⟩
                      simp [DecodeRuneInString, hb1, hxx, h2, h3, hr, hs2, hs3]

/-- Decoding a two-byte encoding. -/
theorem decode_two (b s1 : Byte) (r : GoString) (h0 : 0xC2 ≤ b.val ∧ b.val ≤ 0xDF)
    (h1 : 0x80 ≤ s1.val ∧ s1.val ≤ 0xBF) :
    DecodeRuneInString (b :: s1 :: r) = (b.val % 0x20 * 0x40 + s1.val % 0x40, 2) := by
  have hb1 : ¬ b.val < 0x80 := by omega
  have hxx : ¬ (b.val < 0xC2 ∨ 0xF4 < b.val) := by omega
  have h2 : b.val < 0xE0 := by omega
  have e1 : ¬ b.val = 0xE0 := by omega
  have e2 : ¬ b.val = 0xF0 := by omega
  have e3 : ¬ b.val = 0xED := by omega
  have e4 : ¬ b.val = 0xF4 := by omega
  have hs1 : ¬ (s1.val < 0x80 ∨ 0xBF < s1.val) := by omega
  simp [DecodeRuneInString, hb1, hxx, h2, e1, e2, e3, e4, hs1]

/-- Decoding a three-byte encoding. -/
theorem decode_three (b s1 s2 : Byte) (r : GoString) (h0 : 0xE0 ≤ b.val ∧ b.val ≤ 0xEF)
    (h1 : 0x80 ≤ s1.val ∧ s1.val ≤ 0xBF) (hlo : b.val = 0xE0 → 0xA0 ≤ s1.val)
    (hhi : b.val = 0xED → s1.val ≤ 0x9F) (h2 : 0x80 ≤ s2.val ∧ s2.val ≤ 0xBF) :
    DecodeRuneInString (b :: s1 :: s2 :: r)
      = (b.val % 0x10 * 0x1000 + s1.val % 0x40 * 0x40 + s2.val % 0x40, 3) := by
  have hb1 : ¬ b.val < 0x80 := by omega
  have hxx : ¬ (b.val < 0xC2 ∨ 0xF4 < b.val) := by omega
  have h2' : ¬ b.val < 0xE0 := by omega
  have h3 : b.val < 0xF0 := by omega
  have hs2 : ¬ (s2.val < 0x80 ∨ 0xBF < s2.val) := by omega
  have hr : ¬ (s1.val < (if b.val = 0xE0 then 0xA0 else if b.val = 0xF0 then 0x90 else 0x80)
      ∨ (if b.val = 0xED then 0x9F else if b.val = 0xF4 then 0x8F else 0xBF) < s1.val) := by
    intro h
    rcases h with h | h
    · split at h
      · omega
      · split at h <;> omega
    · split at h
      · omega
      · split at h <;> omega
  simp [DecodeRuneInString, hb1, hxx, h2', h3, hr, hs2]

/-- Decoding a four-byte encoding. -/
theorem decode_four (b s1 s2 s3 : Byte) (r : GoString) (h0 : 0xF0 ≤ b.val ∧ b.val ≤ 0xF4)
    (h1 : 0x80 ≤ s1.val ∧ s1.val ≤ 0xBF) (hlo : b.val = 0xF0 → 0x90 ≤ s1.val)
    (hhi : b.val = 0xF4 → s1.val ≤ 0x8F) (h2 : 0x80 ≤ s2.val ∧ s2.val ≤ 0xBF)
    (h3 : 0x80 ≤ s3.val ∧ s3.val ≤ 0xBF) :
    DecodeRuneInString (b :: s1 :: s2 :: s3 :: r)
      = (b.val % 0x08 * 0x40000 + s1.val % 0x40 * 0x1000 + s2.val % 0x40 * 0x40 +
          s3.val % 0x40, 4) := by
  have hb1 : ¬ b.val < 0x80 := by omega
  have hxx : ¬ (b.val < 0xC2 ∨ 0xF4 < b.val) := by omega
  have h2' : ¬ b.val < 0xE0 := by omega
  have h3' : ¬ b.val < 0xF0 := by omega
  have hs2 : ¬ (s2.val < 0x80 ∨ 0xBF < s2.val) := by omega
  have hs3 : ¬ (s3.val < 0x80 ∨ 0xBF < s3.val) := by omega
  have hr : ¬ (s1.val < (if b.val = 0xE0 then 0xA0 else if b.val = 0xF0 then 0x90 else 0x80)
      ∨ (if b.val = 0xED then 0x9F else if b.val = 0xF4 then 0x8F else 0xBF) < s1.val) := by
    intro h
    rcases h with h | h
    · split at h
      · omega
      · split at h <;> omega
    · split at h
      · omega
      · split at h <;> omega
  simp [DecodeRuneInString, hb1, hxx, h2', h3', hr, hs2, hs3]

/-- A rune decoded from a valid encoding outside ASCII: its width is between two and
the length of the input, encoding it gives the bytes it was decoded from, and decoding
depends on those bytes only. -/
theorem decode_valid (b : Byte) (rest : GoString) (hb : 0x80 ≤ b.val)
    (hv : ¬ ((DecodeRuneInString (b :: rest)).1 = RuneError ∧
      (DecodeRuneInString (b :: rest)).2 = 1)) :
    2 ≤ (DecodeRuneInString (b :: rest)).2 ∧
    (DecodeRuneInString (b :: rest)).2 ≤ (b :: rest).length ∧
    EncodeRune (DecodeRuneInString (b :: rest)).1
      = (b :: rest).take (DecodeRuneInString (b :: rest)).2 ∧
    ∀ tail, DecodeRuneInString ((b :: rest).take (DecodeRuneInString (b :: rest)).2 ++ tail)
      = DecodeRuneInString (b :: rest) := by
  rcases decode_cases b rest hb hv with ⟨s1, r1, hrest, h0, h0', h1, h1', hd⟩ |
    ⟨s1, s2, r2, hrest, h0, h0', h1, h1', hlo, hhi, h2, h2', hd⟩ |
    ⟨s1, s2, s3, r3, hrest, h0, h0', h1, h1', hlo, hhi, h2, h2', h3, h3', hd⟩
  · subst hrest
    rw [hd]
    refine ⟨by simp, by simp, ?_, ?_⟩
    · have c1 : ¬ (b.val % 0x20 * 0x40 + s1.val % 0x40 ≤ 0x7F) := by omega
      have c2 : b.val % 0x20 * 0x40 + s1.val % 0x40 ≤ 0x7FF := by omega
      simp only [EncodeRune, c1, c2, if_true, if_false, List.take_succ_cons, List.take_zero]
      rw [ofNat_val_eq b _ (by omega), ofNat_val_eq s1 _ (by omega)]
    · intro tail
      exact decode_two b s1 tail ⟨h0, h0'⟩ ⟨h1, h1'⟩
  · subst hrest
    rw [hd]
    refine ⟨by simp, by simp, ?_, ?_⟩
    · have c1 : ¬ (b.val % 0x10 * 0x1000 + s1.val % 0x40 * 0x40 + s2.val % 0x40 ≤ 0x7F) := by
        omega
      have c2 : ¬ (b.val % 0x10 * 0x1000 + s1.val % 0x40 * 0x40 + s2.val % 0x40 ≤ 0x7FF) := by
        omega
      have c3 : ¬ (0x10FFFF < b.val % 0x10 * 0x1000 + s1.val % 0x40 * 0x40 + s2.val % 0x40 ∨
          (0xD800 ≤ b.val % 0x10 * 0x1000 + s1.val % 0x40 * 0x40 + s2.val % 0x40 ∧
            b.val % 0x10 * 0x1000 + s1.val % 0x40 * 0x40 + s2.val % 0x40 ≤ 0xDFFF)) := by
        omega
      have c4 : b.val % 0x10 * 0x1000 + s1.val % 0x40 * 0x40 + s2.val % 0x40 ≤ 0xFFFF := by
        omega
      simp only [EncodeRune, c1, c2, c3, c4, if_true, if_false, List.take_succ_cons,
        List.take_zero]
      rw [ofNat_val_eq b _ (by omega), ofNat_val_eq s1 _ (by omega),
        ofNat_val_eq s2 _ (by omega)]
    · intro tail
      exact decode_three b s1 s2 tail ⟨h0, h0'⟩ ⟨h1, h1'⟩ hlo hhi ⟨h2, h2'⟩
  · subst hrest
    rw [hd]
    refine ⟨by simp, by simp, ?_, ?_⟩
    · have c1 : ¬ (b.val % 0x08 * 0x40000 + s1.val % 0x40 * 0x1000 + s2.val % 0x40 * 0x40 +
          s3.val % 0x40 ≤ 0x7F) := by omega
      have c2 : ¬ (b.val % 0x08 * 0x40000 + s1.val % 0x40 * 0x1000 + s2.val % 0x40 * 0x40 +
          s3.val % 0x40 ≤ 0x7FF) := by omega
      have c3 : ¬ (0x10FFFF < b.val % 0x08 * 0x40000 + s1.val % 0x40 * 0x1000 +
            s2.val % 0x40 * 0x40 + s3.val % 0x40 ∨
          (0xD800 ≤ b.val % 0x08 * 0x40000 + s1.val % 0x40 * 0x1000 + s2.val % 0x40 * 0x40 +
              s3.val % 0x40 ∧
            b.val % 0x08 * 0x40000 + s1.val % 0x40 * 0x1000 + s2.val % 0x40 * 0x40 +
              s3.val % 0x40 ≤ 0xDFFF)) := by omega
      have c4 : ¬ (b.val % 0x08 * 0x40000 + s1.val % 0x40 * 0x1000 + s2.val % 0x40 * 0x40 +
          s3.val % 0x40 ≤ 0xFFFF) := by omega
      simp only [EncodeRune, c1, c2, c3, c4, if_true, if_false, List.take_succ_cons,
        List.take_zero]
      rw [ofNat_val_eq b _ (by omega), ofNat_val_eq s1 _ (by omega),
        ofNat_val_eq s2 _ (by omega), ofNat_val_eq s3 _ (by omega)]
    · intro tail
      exact decode_four b s1 s2 s3 tail ⟨h0, h0'⟩ ⟨h1, h1'⟩ hlo hhi ⟨h2, h2'⟩ ⟨h3, h3'⟩

/-- One decoding step at an ASCII byte that stands for itself. -/
theorem parseStringBody_ascii (F : Nat) (c : Byte) (cs : GoString)
    (h : 0x20 ≤ c.val ∧ c.val < 0x80 ∧ c.val ≠ 0x22 ∧ c.val ≠ 0x5c) :
    parseStringBody (F + 1) (c :: cs) = consBytes [c] (parseStringBody F cs) := by
  have h1 : ¬ c.val < 0x20 := by omega
  simp [parseStringBody, h.2.2.1, h.2.2.2, h1, h.2.1]

/-- One decoding step at a byte outside ASCII. -/
theorem parseStringBody_nonascii (F : Nat) (c : Byte) (cs : GoString) (h : 0x80 ≤ c.val) :
    parseStringBody (F + 1) (c :: cs)
      = consBytes (EncodeRune (DecodeRuneInString (c :: cs)).1)
          (parseStringBody F ((c :: cs).drop (DecodeRuneInString (c :: cs)).2)) := by
  have h1 : ¬ c.val < 0x20 := by omega
  have h2 : ¬ c.val < 0x80 := by omega
  have h3 : ¬ c.val = 0x22 := by omega
  have h4 : ¬ c.val = 0x5c := by omega
  simp only [parseStringBody, h1, h2, h3, h4, if_false]

/-- The closing quote ends the string. -/
theorem parseStringBody_quote (F : Nat) (X : GoString) :
    parseStringBody (F + 1) ((0x22 : Byte) :: X) = some ([], X) := by
  simp [parseStringBody, Fin.coe_ofNat_eq_mod]

/-- The hexadecimal digits written by the encoder read back. -/
theorem unhex_hexDigit (n : Nat) (h : n < 16) :
    ishex (hexDigit n) = true ∧ unhex (hexDigit n) = n := by
  interval_cases n <;> decide

/-- One decoding step at a single-character escape. -/
theorem parseStringBody_simpleEscape (F : Nat) (e b : Byte) (Y : GoString)
    (he : e.val ≠ 0x75) (hs : simpleEscape e = some b) :
    parseStringBody (F + 1) ((0x5c : Byte) :: e :: Y) = consBytes [b] (parseStringBody F Y) := by
  simp [parseStringBody, he, hs, Fin.coe_ofNat_eq_mod]

/-- One decoding step at the escape the encoder writes for an ASCII byte. -/
theorem parseStringBody_escapeByte (F : Nat) (b : Byte) (Y : GoString) (hb : b.val < 0x80) :
    parseStringBody (F + 1) (escapeByte b ++ Y) = consBytes [b] (parseStringBody F Y) := by
  have e1 : str "\\n" = [(0x5c : Byte), 0x6e] := by decide
  have e2 : str "\\r" = [(0x5c : Byte), 0x72] := by decide
  have e3 : str "\\t" = [(0x5c : Byte), 0x74] := by decide
  have e4 : str "\\u00" = [(0x5c : Byte), 0x75, 0x30, 0x30] := by decide
  unfold escapeByte
  by_cases c1 : b.val = 0x5c ∨ b.val = 0x22
  · simp only [c1, if_true, List.cons_append, List.nil_append]
    apply parseStringBody_simpleEscape
    · omega
    · unfold simpleEscape
      have : b.val = 0x22 ∨ b.val = 0x5c ∨ b.val = 0x2f := by omega
      simp [this]
  · by_cases c2 : b.val = 0x0a
    · have hb' : b = 0x0a := Fin.ext c2
      simp only [c1, c2, if_true, if_false, e1, List.cons_append, List.nil_append, hb']
      exact parseStringBody_simpleEscape F _ _ Y (by decide) (by decide)
    · by_cases c3 : b.val = 0x0d
      · have hb' : b = 0x0d := Fin.ext c3
        simp only [c1, c2, c3, if_true, if_false, e2, List.cons_append, List.nil_append, hb']
        exact parseStringBody_simpleEscape F _ _ Y (by decide) (by decide)
      · by_cases c4 : b.val = 0x09
        · have hb' : b = 0x09 := Fin.ext c4
          simp only [c1, c2, c3, c4, if_true, if_false, e3, List.cons_append, List.nil_append,
            hb']
          exact parseStringBody_simpleEscape F _ _ Y (by decide) (by decide)
        · simp only [c1, c2, c3, c4, if_false, e4, List.cons_append, List.nil_append]
          obtain ⟨i1, u1⟩ := unhex_hexDigit (b.val / 16) (by omega)
          obtain ⟨i2, u2⟩ := unhex_hexDigit (b.val % 16) (by omega)
          have i0 : ishex (0x30 : Byte) = true := by decide
          have u0 : unhex (0x30 : Byte) = 0 := by decide
          have hsum : b.val / 16 * 16 + b.val % 16 = b.val := by omega
          have hsur : ¬ (0xD800 ≤ b.val ∧ b.val ≤ 0xDBFF) := by omega
          have henc : EncodeRune b.val = [b] := by
            have : b.val ≤ 0x7F := by omega
            simp only [EncodeRune, this, if_true]
            rw [ofNat_val_eq b _ rfl]
          simp [parseStringBody, hex4, i0, u0, i1, u1, i2, u2, hsum, hsur, henc,
            Fin.coe_ofNat_eq_mod]

/-- The escape of a byte is not empty. -/
theorem escapeByte_length_pos (b : Byte) : 0 < (escapeByte b).length := by
  unfold escapeByte
  split
  · simp
  · split
    · decide
    · split
      · decide
      · split
        · decide
        · simp

/-- Decoding an ASCII byte gives the byte, with width one. -/
theorem decode_ascii (b : Byte) (rest : GoString) (hb : b.val < 0x80) :
    DecodeRuneInString (b :: rest) = (b.val, 1) := by
  simp [DecodeRuneInString, hb]

/-- The string literal written by the encoder for a valid UTF-8 string decodes to that
string.  `n` bounds the encoder and the validity check, `F` the decoder. -/
theorem parseStringBody_encodeStringLoop : ∀ (n : Nat) (s : GoString),
    validLoop n s = true → s.length ≤ n →
    ∀ (F : Nat) (X : GoString), (encodeStringLoop n s).length < F →
      parseStringBody F (encodeStringLoop n s ++ (0x22 : Byte) :: X) = some (s, X) := by
  intro n
  induction n with
  | zero =>
    intro s _ hlen F X hF
    have hs : s = [] := List.length_eq_zero.1 (by omega)
    subst hs
    obtain ⟨F', rfl⟩ : ∃ F', F = F' + 1 := ⟨F - 1, by omega⟩
    simp only [encodeStringLoop, List.nil_append]
    exact parseStringBody_quote F' X
  | succ n ih =>
    intro s hv hlen F X hF
    obtain ⟨F', rfl⟩ : ∃ F', F = F' + 1 := ⟨F - 1, by omega⟩
    cases s with
    | nil =>
      simp only [encodeStringLoop, List.nil_append]
      exact parseStringBody_quote F' X
    | cons b rest =>
      by_cases hb : b.val < 0x80
      · have hv' : validLoop n rest = true := by
          have hne : ¬ b.val = RuneError := by
            unfold RuneError
            omega
          have h1 := hv
          simp only [validLoop, decode_ascii b rest hb, hne, false_and, if_false,
            List.drop_succ_cons, List.drop_zero] at h1
          exact h1
        have hlen' : rest.length ≤ n := by
          simp only [List.length_cons] at hlen
          omega
        by_cases hsafe : htmlSafeSet b = true
        · have henc : encodeStringLoop (n + 1) (b :: rest) = b :: encodeStringLoop n rest := by
            simp [encodeStringLoop, hb, hsafe]
          rw [henc] at hF ⊢
          simp only [List.length_cons] at hF
          have hcond : 0x20 ≤ b.val ∧ b.val < 0x80 ∧ b.val ≠ 0x22 ∧ b.val ≠ 0x5c := by
            simp only [htmlSafeSet, Bool.and_eq_true, decide_eq_true_eq, Bool.not_eq_true',
              Bool.or_eq_false_iff, decide_eq_false_iff_not] at hsafe
            omega
          rw [List.cons_append, parseStringBody_ascii F' b _ hcond,
            ih rest hv' hlen' F' X (by omega)]
          rfl
        · have henc : encodeStringLoop (n + 1) (b :: rest)
              = escapeByte b ++ encodeStringLoop n rest := by
            simp [encodeStringLoop, hb, hsafe]
          rw [henc] at hF ⊢
          simp only [List.length_append] at hF
          have hpos := escapeByte_length_pos b
          rw [List.append_assoc, parseStringBody_escapeByte F' b _ hb,
            ih rest hv' hlen' F' X (by omega)]
          rfl
      · have hb' : 0x80 ≤ b.val := by omega
        have hval : ¬ ((DecodeRuneInString (b :: rest)).1 = RuneError ∧
            (DecodeRuneInString (b :: rest)).2 = 1) := by
          intro hbad
          simp [validLoop, hbad] at hv
        have hv' : validLoop n ((b :: rest).drop (DecodeRuneInString (b :: rest)).2) = true := by
          simpa [validLoop, hval] using hv
        obtain ⟨d2, dlen, denc, dtail⟩ := decode_valid b rest hb' hval
        have hlen' : ((b :: rest).drop (DecodeRuneInString (b :: rest)).2).length ≤ n := by
          rw [List.length_drop]
          omega
        have htake : ((b :: rest).take (DecodeRuneInString (b :: rest)).2).length
            = (DecodeRuneInString (b :: rest)).2 := by
          rw [List.length_take]
          omega
        by_cases hsep : (DecodeRuneInString (b :: rest)).1 = 0x2028 ∨
            (DecodeRuneInString (b :: rest)).1 = 0x2029
        · have henc : encodeStringLoop (n + 1) (b :: rest)
              = str "\\u202" ++ [hexDigit ((DecodeRuneInString (b :: rest)).1 % 16)] ++
                encodeStringLoop n ((b :: rest).drop (DecodeRuneInString (b :: rest)).2) := by
            simp [encodeStringLoop, hb, hval, hsep]
          rw [henc] at hF ⊢
          have e5 : str "\\u202" = [(0x5c : Byte), 0x75, 0x32, 0x30, 0x32] := by decide
          simp only [List.length_append, e5, List.length_cons, List.length_nil] at hF
          have hstep : ∀ Y, parseStringBody (F' + 1)
              (str "\\u202" ++ [hexDigit ((DecodeRuneInString (b :: rest)).1 % 16)] ++ Y)
              = consBytes (EncodeRune (DecodeRuneInString (b :: rest)).1)
                  (parseStringBody F' Y) := by
            intro Y
            rw [e5]
            rcases hsep with h | h
            · rw [h]
              have hh : hexDigit (0x2028 % 16) = (0x38 : Byte) := by decide
              rw [hh]
              have hx : hex4 ((0x32 : Byte) :: 0x30 :: 0x32 :: 0x38 :: Y) = some (0x2028, Y) := by
                simp [hex4, ishex, unhex, Fin.coe_ofNat_eq_mod]
              simp [parseStringBody, hx, Fin.coe_ofNat_eq_mod]
            · rw [h]
              have hh : hexDigit (0x2029 % 16) = (0x39 : Byte) := by decide
              rw [hh]
              have hx : hex4 ((0x32 : Byte) :: 0x30 :: 0x32 :: 0x39 :: Y) = some (0x2029, Y) := by
                simp [hex4, ishex, unhex, Fin.coe_ofNat_eq_mod]
              simp [parseStringBody, hx, Fin.coe_ofNat_eq_mod]
          rw [List.append_assoc, hstep, ih _ hv' hlen' F' X (by omega), denc]
          simp [consBytes]
        · have henc : encodeStringLoop (n + 1) (b :: rest)
              = (b :: rest).take (DecodeRuneInString (b :: rest)).2 ++
                encodeStringLoop n ((b :: rest).drop (DecodeRuneInString (b :: rest)).2) := by
            simp [encodeStringLoop, hb, hval, hsep]
          rw [henc] at hF ⊢
          simp only [List.length_append] at hF
          obtain ⟨k, hk⟩ : ∃ k, (DecodeRuneInString (b :: rest)).2 = k + 1 :=
            ⟨(DecodeRuneInString (b :: rest)).2 - 1, by omega⟩
          have hshape : (b :: rest).take (DecodeRuneInString (b :: rest)).2
              = b :: rest.take k := by
            rw [hk, List.take_succ_cons]
          have hd := dtail (encodeStringLoop n
            ((b :: rest).drop (DecodeRuneInString (b :: rest)).2) ++ (0x22 : Byte) :: X)
          rw [List.append_assoc]
          rw [hshape] at hd ⊢
          rw [List.cons_append, parseStringBody_nonascii F' b _ hb']
          rw [List.cons_append] at hd
          rw [hd, denc, ← List.cons_append, ← hshape]
          have hdrop : List.drop (DecodeRuneInString (b :: rest)).2
              ((b :: rest).take (DecodeRuneInString (b :: rest)).2 ++
                (encodeStringLoop n ((b :: rest).drop (DecodeRuneInString (b :: rest)).2) ++
                  (0x22 : Byte) :: X))
              = encodeStringLoop n ((b :: rest).drop (DecodeRuneInString (b :: rest)).2) ++
                  (0x22 : Byte) :: X := by
            rw [List.drop_append_of_le_length (by omega)]
            rw [List.drop_eq_nil_of_le (by omega)]
            rfl
          rw [hdrop, ih _ hv' hlen' F' X (by omega)]
          simp [consBytes]

/-- Nothing is skipped in front of a byte that is not whitespace. -/
theorem skipWS_cons (c : Byte) (cs : GoString)
    (h : ¬ (c.val = 0x20 ∨ c.val = 0x09 ∨ c.val = 0x0a ∨ c.val = 0x0d)) :
    skipWS (c :: cs) = c :: cs := by
  simp [skipWS, h]

/-- A string literal written by the encoder is read as the string value. -/
theorem parseValue_encodeString (F : Nat) (s X : GoString) (hv : ValidString s = true) :
    parseValue (F + 1) (encodeString s ++ X) = some (.string s, X) := by
  have h := parseStringBody_encodeStringLoop s.length s hv (le_refl _)
    ((encodeStringLoop s.length s ++ (0x22 : Byte) :: X).length + 1) X
    (by simp only [List.length_append, List.length_cons]; omega)
  simp only [encodeString, List.append_assoc, List.singleton_append, List.cons_append,
    List.nil_append]
  simp only [parseValue, Fin.coe_ofNat_eq_mod, Nat.reduceMod, Nat.reduceEqDiff, if_false,
    if_true, h, Option.map_some']

/-- A string literal written by the encoder starts with a quote. -/
theorem encodeString_append (s Y : GoString) :
    encodeString s ++ Y = (0x22 : Byte) :: (encodeStringLoop s.length s ++ (0x22 : Byte) :: Y) := by
  simp [encodeString]

/-- No whitespace is skipped in front of a string literal written by the encoder. -/
theorem skipWS_encodeString (s Y : GoString) : skipWS (encodeString s ++ Y) = encodeString s ++ Y := by
  rw [encodeString_append]
  exact skipWS_cons _ _ (by decide)

/-- An object member whose key and value were written by the encoder, followed by a
closing brace, is the last member. -/
theorem parseMembers_last (F : Nat) (key X W : GoString) (v : JSON)
    (hk : ValidString key = true) (hW : skipWS W = W)
    (hval : parseValue F W = some (v, (0x7d : Byte) :: X)) :
    parseMembers (F + 1) (encodeString key ++ (0x3a : Byte) :: W) = some ([(key, v)], X) := by
  have h := parseStringBody_encodeStringLoop key.length key hk (le_refl _)
    ((encodeStringLoop key.length key ++ (0x22 : Byte) :: (0x3a : Byte) :: W).length + 1)
    ((0x3a : Byte) :: W)
    (by simp only [List.length_append, List.length_cons]; omega)
  rw [encodeString_append]
  simp only [parseMembers, Fin.coe_ofNat_eq_mod, Nat.reduceMod, ne_eq, not_true_eq_false,
    if_false, h]
  have h1 : skipWS ((0x3a : Byte) :: W) = (0x3a : Byte) :: W := skipWS_cons _ _ (by decide)
  have h2 : skipWS ((0x7d : Byte) :: X) = (0x7d : Byte) :: X := skipWS_cons _ _ (by decide)
  simp only [h1, hW, hval, h2, Fin.coe_ofNat_eq_mod, Nat.reduceMod, ne_eq,
    not_true_eq_false, if_false, if_true]

/-- An object member whose key and value were written by the encoder, followed by a
comma and the key of the next member, is followed by the members read from that key
on. -/
theorem parseMembers_more (F : Nat) (key key2 Y W : GoString) (v : JSON)
    (hk : ValidString key = true) (hW : skipWS W = W)
    (hval : parseValue F W = some (v, (0x2c : Byte) :: (encodeString key2 ++ Y))) :
    parseMembers (F + 1) (encodeString key ++ (0x3a : Byte) :: W)
      = (parseMembers F (encodeString key2 ++ Y)).map (fun r => ((key, v) :: r.1, r.2)) := by
  have h := parseStringBody_encodeStringLoop key.length key hk (le_refl _)
    ((encodeStringLoop key.length key ++ (0x22 : Byte) :: (0x3a : Byte) :: W).length + 1)
    ((0x3a : Byte) :: W)
    (by simp only [List.length_append, List.length_cons]; omega)
  rw [encodeString_append key]
  simp only [parseMembers, Fin.coe_ofNat_eq_mod, Nat.reduceMod, ne_eq, not_true_eq_false,
    if_false, h]
  have h1 : skipWS ((0x3a : Byte) :: W) = (0x3a : Byte) :: W := skipWS_cons _ _ (by decide)
  have h2 : skipWS ((0x2c : Byte) :: (encodeString key2 ++ Y))
      = (0x2c : Byte) :: (encodeString key2 ++ Y) := skipWS_cons _ _ (by decide)
  simp only [h1, hW, hval, h2, skipWS_encodeString, Fin.coe_ofNat_eq_mod, Nat.reduceMod, ne_eq,
    not_true_eq_false, if_false, if_true, Nat.reduceEqDiff]

/-- An opening brace followed by a key written by the encoder starts an object with
members. -/
theorem parseValue_object (F : Nat) (key Y : GoString) :
    parseValue (F + 1) ((0x7b : Byte) :: (encodeString key ++ Y))
      = (parseMembers F (encodeString key ++ Y)).map (fun r => (.object r.1, r.2)) := by
  have h3 := skipWS_encodeString key Y
  rw [encodeString_append] at h3 ⊢
  simp only [parseValue, h3, Fin.coe_ofNat_eq_mod, Nat.reduceMod, Nat.reduceEqDiff, if_false,
    if_true]

/-- The encoded payload decodes to the object it was encoded from. -/
theorem decodeJSON_Marshal (id group body : GoString) (hid : ValidString id = true)
    (hgroup : ValidString group = true)
    (h : Marshal { ClientParams := some { ID := id, Group := group } } = .ok body) :
    decodeJSON body = some (.object [(str "client_params",
      .object [(str "id", .string id), (str "group", .string group)])]) := by
  have k1 : str "\x7b\"client_params\":" = (0x7b : Byte) :: (encodeString (str "client_params") ++
      [(0x3a : Byte)]) := by decide
  have k2 : str "\x7b\"id\":" = (0x7b : Byte) :: (encodeString (str "id") ++ [(0x3a : Byte)]) := by
    decide
  have k3 : str ",\"group\":" = (0x2c : Byte) :: (encodeString (str "group") ++ [(0x3a : Byte)]) := by
    decide
  have k4 : str "\x7d" = [(0x7d : Byte)] := by decide
  have hb : body = (0x7b : Byte) :: (encodeString (str "client_params") ++ (0x3a : Byte) ::
      (0x7b : Byte) :: (encodeString (str "id") ++ (0x3a : Byte) :: (encodeString id ++
        (0x2c : Byte) :: (encodeString (str "group") ++ (0x3a : Byte) :: (encodeString group ++
          [(0x7d : Byte), (0x7d : Byte)]))))) := by
    simp only [Marshal, Except.ok.injEq, k1, k2, k3, k4] at h
    rw [← h]
    simp
  have v1 : ValidString (str "client_params") = true := by decide
  have v2 : ValidString (str "id") = true := by decide
  have v3 : ValidString (str "group") = true := by decide
  have hlen : 5 ≤ body.length := by
    rw [hb]
    simp only [List.length_cons, List.length_append]
    omega
  obtain ⟨N, hN⟩ : ∃ N, body.length + 1 = N + 6 := ⟨body.length - 5, by omega⟩
  have hws : skipWS body = body := by
    rw [hb]
    exact skipWS_cons _ _ (by decide)
  have g1 : parseValue (N + 1) (encodeString group ++ [(0x7d : Byte), (0x7d : Byte)])
      = some (.string group, [(0x7d : Byte), (0x7d : Byte)]) :=
    parseValue_encodeString N group _ hgroup
  have g2 := parseMembers_last (N + 1) (str "group") [(0x7d : Byte)] _ _ v3
    (skipWS_encodeString group _) g1
  have g3 : parseValue (N + 2) (encodeString id ++ (0x2c : Byte) :: (encodeString (str "group") ++
      (0x3a : Byte) :: (encodeString group ++ [(0x7d : Byte), (0x7d : Byte)])))
      = some (.string id, (0x2c : Byte) :: (encodeString (str "group") ++
      (0x3a : Byte) :: (encodeString group ++ [(0x7d : Byte), (0x7d : Byte)]))) :=
    parseValue_encodeString (N + 1) id _ hid
  have g4 := parseMembers_more (N + 2) (str "id") (str "group") _ _ _ v2
    (skipWS_encodeString id _) g3
  rw [g2] at g4
  have g5 := parseValue_object (N + 3) (str "id") ((0x3a : Byte) :: (encodeString id ++
      (0x2c : Byte) :: (encodeString (str "group") ++ (0x3a : Byte) :: (encodeString group ++
        [(0x7d : Byte), (0x7d : Byte)]))))
  rw [g4] at g5
  simp only [Option.map_some'] at g5
  have g6 := parseMembers_last (N + 4) (str "client_params") [] _ _ v1
    (skipWS_cons _ _ (by decide)) g5
  have g7 := parseValue_object (N + 5) (str "client_params") ((0x3a : Byte) ::
      (0x7b : Byte) :: (encodeString (str "id") ++ (0x3a : Byte) :: (encodeString id ++
        (0x2c : Byte) :: (encodeString (str "group") ++ (0x3a : Byte) :: (encodeString group ++
          [(0x7d : Byte), (0x7d : Byte)])))))
  rw [g6] at g7
  simp only [Option.map_some'] at g7
  unfold decodeJSON
  rw [hws, hN]
  rw [hb, g7]
  simp [skipWS]

/-- The value of a byte made from a number below 256. -/
theorem ofNat_val (n : Nat) (h : n < 256) : ((Fin.ofNat n : Byte)).val = n := by
  simp only [Fin.ofNat, Nat.succ_eq_add_one]
  omega

/-- Decoding the encoding of a scalar value gives the value back, with the width of the
encoding, whatever follows. -/
theorem decode_EncodeRune (r : Nat) (tail : GoString) (hr : isScalar r = true) :
    EncodeRune r ≠ [] ∧
    DecodeRuneInString (EncodeRune r ++ tail) = (r, (EncodeRune r).length) ∧
    ¬ (r = RuneError ∧ (EncodeRune r).length = 1) := by
  simp only [isScalar, Bool.or_eq_true, decide_eq_true_eq, Bool.and_eq_true] at hr
  by_cases c1 : r ≤ 0x7F
  · have e : EncodeRune r = [Fin.ofNat r] := by simp [EncodeRune, c1]
    rw [e]
    refine ⟨by simp, ?_, ?_⟩
    · rw [List.singleton_append, decode_ascii _ _ (by rw [ofNat_val r (by omega)]; omega),
        ofNat_val r (by omega)]
      rfl
    · unfold RuneError
      omega
  · by_cases c2 : r ≤ 0x7FF
    · have e : EncodeRune r = [Fin.ofNat (0xC0 + r / 0x40), Fin.ofNat (0x80 + r % 0x40)] := by
        simp [EncodeRune, c1, c2]
      rw [e]
      refine ⟨by simp, ?_, by simp⟩
      have v0 := ofNat_val (0xC0 + r / 0x40) (by omega)
      have v1 := ofNat_val (0x80 + r % 0x40) (by omega)
      rw [List.cons_append, List.cons_append, List.nil_append,
        decode_two _ _ tail (by omega) (by omega), v0, v1]
      simp only [List.length_cons, List.length_nil, Prod.mk.injEq, and_true]
      omega
    · have c3 : ¬ (0x10FFFF < r ∨ (0xD800 ≤ r ∧ r ≤ 0xDFFF)) := by omega
      by_cases c4 : r ≤ 0xFFFF
      · have e : EncodeRune r = [Fin.ofNat (0xE0 + r / 0x1000),
            Fin.ofNat (0x80 + r / 0x40 % 0x40), Fin.ofNat (0x80 + r % 0x40)] := by
          simp [EncodeRune, c1, c2, c3, c4]
        rw [e]
        refine ⟨by simp, ?_, by simp⟩
        have v0 := ofNat_val (0xE0 + r / 0x1000) (by omega)
        have v1 := ofNat_val (0x80 + r / 0x40 % 0x40) (by omega)
        have v2 := ofNat_val (0x80 + r % 0x40) (by omega)
        rw [List.cons_append, List.cons_append, List.cons_append, List.nil_append,
          decode_three _ _ _ tail (by omega) (by omega) (by omega) (by omega) (by omega),
          v0, v1, v2]
        simp only [List.length_cons, List.length_nil, Prod.mk.injEq, and_true]
        omega
      · have e : EncodeRune r = [Fin.ofNat (0xF0 + r / 0x40000),
            Fin.ofNat (0x80 + r / 0x1000 % 0x40), Fin.ofNat (0x80 + r / 0x40 % 0x40),
            Fin.ofNat (0x80 + r % 0x40)] := by
          simp [EncodeRune, c1, c2, c3, c4]
        rw [e]
        refine ⟨by simp, ?_, by simp⟩
        have v0 := ofNat_val (0xF0 + r / 0x40000) (by omega)
        have v1 := ofNat_val (0x80 + r / 0x1000 % 0x40) (by omega)
        have v2 := ofNat_val (0x80 + r / 0x40 % 0x40) (by omega)
        have v3 := ofNat_val (0x80 + r % 0x40) (by omega)
        rw [List.cons_append, List.cons_append, List.cons_append, List.cons_append,
          List.nil_append,
          decode_four _ _ _ _ tail (by omega) (by omega) (by omega) (by omega) (by omega)
            (by omega),
          v0, v1, v2, v3]
        simp only [List.length_cons, List.length_nil, Prod.mk.injEq, and_true]
        omega

/-- The UTF-8 encoding of any sequence of Unicode scalar values passes the validity
check, with any bound that is at least its length. -/
theorem validLoop_utf8 : ∀ (rs : List Nat) (n : Nat), (∀ r ∈ rs, isScalar r = true) →
    (utf8 rs).length ≤ n → validLoop n (utf8 rs) = true := by
  intro rs
  induction rs with
  | nil =>
    intro n _ _
    cases n <;> rfl
  | cons r rs ih =>
    intro n hs hlen
    obtain ⟨hne, hdec, herr⟩ := decode_EncodeRune r (utf8 rs) (hs r (by simp))
    have hu : utf8 (r :: rs) = EncodeRune r ++ utf8 rs := by simp [utf8]
    rw [hu] at hlen ⊢
    rw [List.length_append] at hlen
    cases he : EncodeRune r with
    | nil => exact absurd he hne
    | cons b bs =>
      rw [he] at hdec herr hlen
      obtain ⟨m, rfl⟩ : ∃ m, n = m + 1 := ⟨n - 1, by simp only [List.length_cons] at hlen; omega⟩
      rw [List.cons_append] at hdec ⊢
      have hdrop : List.drop (b :: bs).length (b :: (bs ++ utf8 rs)) = utf8 rs := by
        rw [← List.cons_append, List.drop_left]
      simp only [validLoop, hdec, herr, if_false, hdrop]
      apply ih m (fun x hx => hs x (by simp [hx]))
      simp only [List.length_cons] at hlen
      omega

/-- Every UTF-8 encoded text is a valid string. -/
theorem ValidString_utf8 (rs : List Nat) (hs : ∀ r ∈ rs, isScalar r = true) :
    ValidString (utf8 rs) = true :=
  validLoop_utf8 rs _ hs (le_refl _)

/-- A base URL that `New` accepts need not give a request: `url.ParseRequestURI` takes a
`#` as part of the query, while `url.Parse`, which `http.NewRequest` calls, cuts a
fragment off and checks its escapes.  The statements about the request built by
`generateRequest` are therefore about the calls in which it returns one. -/
theorem generateRequest_can_fail :
    (New (str "http://host/?q#%zz") (str "g") (str "n")
      (failingTransport (.errorString []))).result.toOption.isSome = true ∧
    generateRequest (⟨str "http://host/?q#%zz", str "g", str "n",
        failingTransport (.errorString [])⟩ : Client Nat) (str "v1/pre-reboot")
      = .error (.wrapError (str "building request: ")
          (.urlError (str "parse") (str "http://host/?q#%zz/v1/pre-reboot")
            (.escapeError (str "%zz")))) :=
  ⟨rfl, rfl⟩

/-- C6, as amended: for every group and id that are valid UTF-8, every base URL and
either endpoint, the body of a request built by `generateRequest` decodes to the
object with the single member `client_params`, itself an object with exactly the
members `id` and `group`, whose values are the strings the client holds, byte for
byte. -/
theorem generateRequest_body_roundtrip {σ : Type} (c : Client σ) (endpoint : GoString)
    (req : Request) (hid : ValidString c.id = true) (hgroup : ValidString c.group = true)
    (h : generateRequest c endpoint = .ok req) :
    decodeJSON req.Body = some (.object [(str "client_params",
      .object [(str "id", .string c.id), (str "group", .string c.group)])]) ∧
    decodePayload req.Body = some { ClientParams := some { ID := c.id, Group := c.group } } := by
  obtain ⟨body, _, hbody, _, hreq⟩ := generateRequest_ok c endpoint req h
  have hd := decodeJSON_Marshal c.id c.group body hid hgroup hbody
  have hb : req.Body = body := by rw [hreq]
  rw [hb]
  refine ⟨hd, ?_⟩
  simp [decodePayload, hd, toPayload]

/-- C6 as amended, for a client built by `New` whose id holds a quote, a backslash, a
line feed, the characters escaped for HTML, and text outside ASCII, and whose group is
empty. -/
theorem generateRequest_body_roundtrip_witness :
    (New (str "http://host") [] (str "n\"\\\n<>&é\u2028😀")
      (failingTransport (.errorString []))).result.toOption.isSome = true ∧
    ValidString (str "n\"\\\n<>&é\u2028😀") = true ∧
    (generateRequest (⟨str "http://host", [], str "n\"\\\n<>&é\u2028😀",
        failingTransport (.errorString [])⟩ : Client Nat)
      (str "v1/steady-state")).toOption.bind (fun r => decodePayload r.Body)
      = some { ClientParams := some { ID := str "n\"\\\n<>&é\u2028😀", Group := [] } } := by
  refine ⟨rfl, by decide, ?_⟩
  have h := generateRequest_body_roundtrip
    (⟨str "http://host", [], str "n\"\\\n<>&é\u2028😀", failingTransport (.errorString [])⟩ :
      Client Nat)
    (str "v1/steady-state")
    ⟨str "POST", { Scheme := str "http", Host := str "host", Path := str "/v1/steady-state" },
      str "host", [(str "Fleet-Lock-Protocol", [str "true"])],
      str ("\x7b\"client_params\":\x7b\"id\":\"n\\\"\\\\\\n\\u003c\\u003e\\u0026é\\u2028😀\"," ++
        "\"group\":\"\"\x7d\x7d")⟩
    (by decide) (by decide) rfl
  exact h.2

/-- C6 fails as stated: an id that is not valid UTF-8 (the single byte 0xFF) is encoded
as the escape of U+FFFD, so the body decodes to an id of three other bytes. -/
theorem generateRequest_body_invalid_utf8 :
    (New (str "http://host") (str "g") [0xff]
      (failingTransport (.errorString []))).result.toOption.isSome = true ∧
    (generateRequest (⟨str "http://host", str "g", [0xff],
        failingTransport (.errorString [])⟩ : Client Nat)
      (str "v1/pre-reboot")).toOption.map (fun r => r.Body)
      = some (str "\x7b\"client_params\":\x7b\"id\":\"\\ufffd\",\"group\":\"g\"\x7d\x7d") ∧
    (generateRequest (⟨str "http://host", str "g", [0xff],
        failingTransport (.errorString [])⟩ : Client Nat)
      (str "v1/pre-reboot")).toOption.bind (fun r => decodePayload r.Body)
      = some { ClientParams := some { ID := [0xef, 0xbf, 0xbd], Group := str "g" } } ∧
    ([0xef, 0xbf, 0xbd] : GoString) ≠ [0xff] :=
  ⟨rfl, rfl, rfl, by decide⟩

end Fleetlock
